import Mathlib

/-
Verification of the colony manager (simulation/logic/blob_manager.py) of the
blob-simulation repository.  The manager's own logic is embedded shallowly and
faithfully; the external collaborators that are not part of the sources
(Board, FSMAnt, the json library, the shared random source) are modelled from
the specification as oracles supplied through an environment record.
-/

set_option linter.unusedVariables false

namespace BlobSim

/-- Numeric values of the model (Python numbers: the JSON numbers of the
knowledge file and the numeric quantities of the board): a rational number
kept as an explicit fraction with a positive denominator.  Fractions are never
normalized, so every operation below computes by plain kernel reduction; the
rational number a fraction denotes is given by Q.val further down, and all
operations are exact on denoted values. -/
structure Q where
  num : ℤ
  den : ℕ+
  deriving DecidableEq

instance (n : Nat) : OfNat Q n := ⟨⟨n, 1⟩⟩

instance : NatCast Q := ⟨fun n => ⟨n, 1⟩⟩

instance : IntCast Q := ⟨fun n => ⟨n, 1⟩⟩

instance : Add Q := ⟨fun a b => ⟨a.num * b.den + b.num * a.den, a.den * b.den⟩⟩

instance : Mul Q := ⟨fun a b => ⟨a.num * b.num, a.den * b.den⟩⟩

instance : Neg Q := ⟨fun a => ⟨-a.num, a.den⟩⟩

instance : Sub Q := ⟨fun a b => a + -b⟩

instance : LE Q := ⟨fun a b => a.num * (b.den : ℤ) ≤ b.num * (a.den : ℤ)⟩

instance : LT Q := ⟨fun a b => a.num * (b.den : ℤ) < b.num * (a.den : ℤ)⟩

instance (a b : Q) : Decidable (a ≤ b) :=
  inferInstanceAs (Decidable (a.num * (b.den : ℤ) ≤ b.num * (a.den : ℤ)))

instance (a b : Q) : Decidable (a < b) :=
  inferInstanceAs (Decidable (a.num * (b.den : ℤ) < b.num * (a.den : ℤ)))

/-- Python max on two numbers: the second argument wins only when strictly
larger. -/
def Q.pymax (a b : Q) : Q := if a < b then b else a

/-- Python int() applied to a number: truncation toward zero. -/
def Q.trunc (q : Q) : ℤ :=
  if 0 ≤ q.num then q.num / (q.den : ℤ) else -((-q.num) / (q.den : ℤ))

/-- Whether the denoted value is an integer (the denominator divides the
numerator); a Python range bound must be an int. -/
def Q.isInt (q : Q) : Prop := q.num % (q.den : ℤ) = 0

instance (q : Q) : Decidable q.isInt := inferInstanceAs (Decidable (_ = _))

/-- Division by the positive literal 100000 appearing in the target
formula. -/
def Q.div100000 (q : Q) : Q := ⟨q.num, q.den * 100000⟩

/-- The rational number denoted by a fraction. -/
def Q.val (q : Q) : ℚ := (q.num : ℚ) / ((q.den : ℕ) : ℚ)

/-- Values stored in the knowledge dictionary of the blob manager: JSON
numbers, coordinate lists (the in-memory food entry), and flat
sub-dictionaries of numbers (the Computing and Scouters records of the
persisted knowledge). -/
inductive JValue where
  | num (q : Q)
  | coords (cs : List (Nat × Nat))
  | obj (fields : List (String × Q))
  deriving DecidableEq

/-- A Python dictionary with string keys, in insertion order. -/
abbrev Jdict := List (String × JValue)

/-- Dictionary lookup, first matching key. -/
def lookupPair {β : Type} (k : String) : List (String × β) → Option β
  | [] => none
  | (k1, v) :: rest => if k1 = k then some v else lookupPair k rest

/-- Dictionary assignment d[k] = v: replace the value at an existing key in
place, otherwise append the new pair at the end (Python insertion order). -/
def setKey (k : String) (v : JValue) : Jdict → Jdict
  | [] => [(k, v)]
  | (k1, v1) :: rest => if k1 = k then (k1, v) :: rest else (k1, v1) :: setKey k v rest

/-- Python del d[k]: remove the key, KeyError (none) when it is absent. -/
def delKey (k : String) : Jdict → Option Jdict
  | [] => none
  | (k1, v1) :: rest =>
    if k1 = k then some rest else (delKey k rest).map (fun d => (k1, v1) :: d)

/-- Read a numeric entry; a missing key or a non-numeric value is an error. -/
def getNum (d : Jdict) (k : String) : Option Q :=
  match lookupPair k d with
  | some (JValue.num q) => some q
  | _ => none

/-- Read the coordinate-list entry (the food list). -/
def getCoords (d : Jdict) (k : String) : Option (List (Nat × Nat)) :=
  match lookupPair k d with
  | some (JValue.coords cs) => some cs
  | _ => none

/-- Read a numeric field of a nested dictionary, d[k1][k2]. -/
def getNested (d : Jdict) (k1 k2 : String) : Option Q :=
  match lookupPair k1 d with
  | some (JValue.obj fs) => lookupPair k2 fs
  | _ => none

/-- Modelled from the spec: the Board collaborator (simulation/board.py is not
under src), reduced to the query interface the manager consumes in section 6
of the spec: width, height, has_food, is_touched, get_blob, get_blob_total,
get_cover.  The mutating decay instruction manage_blob is external; the board
resulting from it is supplied by the environment. -/
structure Board where
  width : Nat
  height : Nat
  has_food : Nat → Nat → Bool
  is_touched : Nat → Nat → Bool
  get_blob : Nat → Nat → Q
  get_blob_total : Q
  get_cover : Q

/-- Modelled from the spec: the manager's view of an FSMAnt scouter (the class
is not under src): an agent with object identity and a grid position; its
per-tick movement decision is external. -/
structure Scouter where
  id : Nat
  x : Nat
  y : Nat
  deriving DecidableEq, Repr

/-- External nondeterminism of the simulation: the post-move position of every
scouter by identity (FSMAnt.move), the board as observed after the per-scouter
moves and trail updates of a tick, the board produced by Board.manage_blob,
and the stream of values of the shared sequential random source (the draw
random.randrange(n) with counter k is modelled as pick k % n). -/
structure Env where
  moveTo : Nat → Nat × Nat
  board1 : Board
  board2 : Board
  pick : Nat → Nat

/-- State of a BlobManager: the board reference, the knowledge dictionary
(holding the derived food and max_scouters entries exactly as the source
stores them), the active scouter list, a counter providing fresh scouter
identities, and the position in the random stream. -/
structure Manager where
  board : Board
  knowledge : Jdict
  scouters : List Scouter
  nextId : Nat
  rng : Nat

/-- Embedding of BlobManager.compute_max_scouters (blob_manager.py lines
133-143).  Every dictionary access is fallible (KeyError), in the evaluation
order of the source expression. -/
def compute_max_scouters (m : Manager) : Option Q := do
  let bsf ← getNested m.knowledge "Computing" "Blob Size Factor"
  let cf ← getNested m.knowledge "Computing" "Covering Factor"
  let kff ← getNested m.knowledge "Computing" "Known Foods Factor"
  let food ← getCoords m.knowledge "food"
  let t0 := bsf * m.board.get_blob_total + cf * m.board.get_cover
              + kff * (food.length : Q)
  let gf ← getNested m.knowledge "Computing" "Global Factor"
  let t1 := t0 * (gf * Q.div100000 ((m.board.height * m.board.width : Nat) : Q))
  let mn ← getNested m.knowledge "Scouters" "Min"
  return Q.pymax mn ((Q.trunc t1 : ℤ) : Q)

/-- Grid scan order of the source loops: x over range(width) outer, y over
range(height) inner. -/
def gridCells (b : Board) : List (Nat × Nat) :=
  (List.range b.width).flatMap (fun x => (List.range b.height).map (fun y => (x, y)))

/-- Embedding of the availables scan of find_blob_square (lines 150-157):
every touched cell paired with its weight get_blob + 1, in grid scan order. -/
def availables (b : Board) : List ((Nat × Nat) × Q) :=
  ((gridCells b).filter (fun c => b.is_touched c.1 c.2)).map
    (fun c => (c, b.get_blob c.1 c.2 + 1))

/-- Total accumulated weight of the availables scan. -/
def total_blob (b : Board) : Q :=
  (availables b).foldl (fun acc a => acc + a.2) 0

/-- Embedding of the accumulation loop of find_blob_square (lines 165-169):
walk the availables list accumulating weights, returning the first square
whose accumulated weight reaches the drawn index; falling off the end of the
list is Python falling out of the for loop and returning None. -/
def pickLoop (index_pond : Nat) : Q → List ((Nat × Nat) × Q) → Option (Nat × Nat)
  | _, [] => none
  | acc, (square, qt) :: rest =>
    if ((index_pond : Q) ≤ acc + qt) then some square
    else pickLoop index_pond (acc + qt) rest

/-- Embedding of BlobManager.find_blob_square (lines 145-169).  The uniform
draw random.randrange(int(total_blob)) is modelled by reducing the raw value
of the random stream modulo int(total_blob); randrange of a non-positive
bound raises ValueError, modelled as none. -/
def find_blob_square (b : Board) (raw : Nat) : Option (Nat × Nat) :=
  if (availables b).length = 0 then some (0, 0)
  else
    let n := (Q.trunc (total_blob b)).toNat
    if n = 0 then none
    else pickLoop (raw % n) 0 (availables b)

/-- Embedding of BlobManager.add_scouter (lines 111-124): when the count is
below max_scouters, spawn one scouter at a uniformly drawn known-food
coordinate when the food list is non-empty, otherwise at a weighted blob
square; otherwise the call is a logged no-op. -/
def add_scouter (env : Env) (m : Manager) : Option Manager := do
  let mx ← getNum m.knowledge "max_scouters"
  if ((m.scouters.length : Q) < mx) then do
    let food ← getCoords m.knowledge "food"
    let pos ← (if food.length ≠ 0 then food[env.pick m.rng % food.length]?
               else find_blob_square m.board (env.pick m.rng))
    return { m with scouters := m.scouters ++ [⟨m.nextId, pos.1, pos.2⟩],
                    nextId := m.nextId + 1, rng := m.rng + 1 }
  else return m

/-- Embedding of BlobManager.remove_scouter (lines 126-131): delete the
scouter at a uniformly drawn index; randrange(0) on an empty list raises
ValueError, modelled as none. -/
def remove_scouter (env : Env) (m : Manager) : Option Manager :=
  if m.scouters.length = 0 then none
  else some { m with scouters := m.scouters.eraseIdx (env.pick m.rng % m.scouters.length),
                     rng := m.rng + 1 }

/-- Embedding of BlobManager.food_discovered (lines 186-199): append the
coordinate to the food entry of the knowledge dictionary. -/
def food_discovered (m : Manager) (x y : Nat) : Option Manager := do
  let food ← getCoords m.knowledge "food"
  return { m with knowledge := setKey "food" (JValue.coords (food ++ [(x, y)])) m.knowledge }

/-- Embedding of BlobManager.food_destroyed (lines 201-207): list.remove of
the coordinate from the food entry; removing an absent element raises
ValueError, modelled as none. -/
def food_destroyed (m : Manager) (x y : Nat) : Option Manager := do
  let food ← getCoords m.knowledge "food"
  if (x, y) ∈ food then
    return { m with knowledge := setKey "food" (JValue.coords (food.erase (x, y))) m.knowledge }
  else none

/-- Python list.remove on the scouter list with object identity: drop the
first scouter with the given identity. -/
def removeFirstId (i : Nat) : List Scouter → List Scouter
  | [] => []
  | sc :: rest => if sc.id = i then rest else sc :: removeFirstId i rest

/-- Embedding of the scouter pass of BlobManager.reset (lines 177-179):
iterate over a copy of the scouter list, removing from the live list every
scouter standing at the given position. -/
def resetScouterLoop (x y : Nat) : List Scouter → List Scouter → List Scouter
  | [], cur => cur
  | sc :: rest, cur =>
    if sc.x = x ∧ sc.y = y then resetScouterLoop x y rest (removeFirstId sc.id cur)
    else resetScouterLoop x y rest cur

/-- Embedding of the food pass of BlobManager.reset (lines 181-184): iterate
over a copy of the food list; each occurrence of the given coordinate is
removed from the live food entry (list.remove, first occurrence, ValueError
when absent) and max_scouters is decremented by one. -/
def resetFoodLoop (x y : Nat) : List (Nat × Nat) → Manager → Option Manager
  | [], m => some m
  | f :: rest, m =>
    if f = (x, y) then do
      let food ← getCoords m.knowledge "food"
      if f ∈ food then do
        let mx ← getNum m.knowledge "max_scouters"
        let k1 := setKey "food" (JValue.coords (food.erase f)) m.knowledge
        let k2 := setKey "max_scouters" (JValue.num (mx - 1)) k1
        resetFoodLoop x y rest { m with knowledge := k2 }
      else none
    else resetFoodLoop x y rest m

/-- Embedding of BlobManager.reset (lines 171-184): the scouter pass followed
by the food pass. -/
def reset (m : Manager) (x y : Nat) : Option Manager := do
  let m1 := { m with scouters := resetScouterLoop x y m.scouters m.scouters }
  let food ← getCoords m1.knowledge "food"
  resetFoodLoop x y food m1

/-- Lexicographic comparison of the character lists of two keys, by code
point; this is the order of Python sorted() on strings. -/
def strLeB : List Char → List Char → Bool
  | [], _ => true
  | _ :: _, [] => false
  | a :: as, b :: bs =>
    if a.toNat < b.toNat then true
    else if b.toNat < a.toNat then false
    else strLeB as bs

/-- Key order used by json.dumps(sort_keys=True). -/
def keyLe (a b : String) : Bool := strLeB a.data b.data

/-- Insertion into a key-sorted pair list. -/
def insertPair {β : Type} (p : String × β) : List (String × β) → List (String × β)
  | [] => [p]
  | q :: rest => if keyLe p.1 q.1 then p :: q :: rest else q :: insertPair p rest

/-- Insertion sort of a pair list by key. -/
def sortPairs {β : Type} : List (String × β) → List (String × β)
  | [] => []
  | p :: rest => insertPair p (sortPairs rest)

/-- Rendering of a JSON number (the textual details of number formatting are
abstracted; the claims only compare rendered outputs with each other). -/
def renderNum (q : Q) : String :=
  if (q.den : Nat) = 1 then toString q.num
  else toString q.num ++ "/" ++ toString (q.den : Nat)

/-- Rendering of a quoted JSON key. -/
def quoteStr (s : String) : String := "\"" ++ s ++ "\""

/-- Rendering of a coordinate list as a JSON array. -/
def renderCoordList (cs : List (Nat × Nat)) : String :=
  "[" ++ String.intercalate ", "
    (cs.map (fun c => "[" ++ toString c.1 ++ ", " ++ toString c.2 ++ "]")) ++ "]"

/-- Rendering of a nested dictionary with sorted keys at indent level two. -/
def renderObjFields (fs : List (String × Q)) : String :=
  if fs.isEmpty then "\x7b\x7d"
  else "\x7b\n" ++ String.intercalate ",\n"
         (fs.map (fun p => "        " ++ quoteStr p.1 ++ ": " ++ renderNum p.2))
       ++ "\n    \x7d"

/-- Rendering of one dictionary value, nested keys sorted. -/
def renderVal : JValue → String
  | JValue.num q => renderNum q
  | JValue.coords cs => renderCoordList cs
  | JValue.obj fs => renderObjFields (sortPairs fs)

/-- Serialization modelled on json.dumps(d, indent=4, sort_keys=True): keys in
sorted order at every level, four spaces of indent per level. -/
def dumps (d : Jdict) : String :=
  if d.isEmpty then "\x7b\x7d"
  else "\x7b\n" ++ String.intercalate ",\n"
         ((sortPairs d).map (fun p => "    " ++ quoteStr p.1 ++ ": " ++ renderVal p.2))
       ++ "\n\x7d"

/-- Embedding of BlobManager.save (lines 63-70): take a copy of the knowledge
dictionary, delete the derived food and max_scouters entries from the copy,
and serialize the copy with sorted keys and indent 4.  The manager is
returned alongside to make the state after the call explicit: the source only
mutates the copy, so it is the unchanged manager. -/
def save (m : Manager) : Option (String × Manager) := do
  let d := m.knowledge
  let d1 ← delKey "food" d
  let d2 ← delKey "max_scouters" d1
  return (dumps d2, m)

/-- Embedding of the construction food scan (lines 50-54): every cell that is
simultaneously food-bearing and touched, in grid scan order. -/
def scanFood (b : Board) : List (Nat × Nat) :=
  (gridCells b).filter (fun c => b.has_food c.1 c.2 && b.is_touched c.1 c.2)

/-- Embedding of the construction spawn loop (lines 58-59): run add_scouter
while the scouter count is below max_scouters.  The fuel argument only bounds
the number of iterations and is chosen large enough at the call site: each
successful add_scouter under the guard grows the list by exactly one. -/
def spawnLoop (env : Env) : Nat → Manager → Option Manager
  | 0, _ => none
  | fuel + 1, m => do
    let mx ← getNum m.knowledge "max_scouters"
    if ((m.scouters.length : Q) < mx) then do
      let m1 ← add_scouter env m
      spawnLoop env fuel m1
    else return m

/-- Embedding of BlobManager.__init__ (lines 38-61).  The src argument is
none when the knowledge file is unreadable or malformed (open or json.load
raises before any field is installed); otherwise the loaded dictionary is
installed, the food entry is built by the board scan, max_scouters is
computed (a KeyError on any missing sizing field surfaces here, at
construction) and scouters are spawned until the count reaches the target. -/
def init (b : Board) (src : Option Jdict) (env : Env) : Option Manager := do
  let doc ← src
  let k1 := setKey "food" (JValue.coords (scanFood b)) doc
  let m0 : Manager := ⟨b, k1, [], 0, 0⟩
  let mx ← compute_max_scouters m0
  let m1 : Manager := { m0 with knowledge := setKey "max_scouters" (JValue.num mx) m0.knowledge }
  spawnLoop env ((Q.trunc mx).toNat + 2) m1

/-- Embedding of step 1 of BlobManager.move (lines 77-87): every scouter
attempts one step (its new position is chosen by its external state machine,
here the environment); a scouter whose position did not change is queued as
dead; a changed position landing on a food cell that is not yet known
triggers food_discovered; the membership test on the food entry is only
reached when has_food holds (Python short-circuit). -/
def moveStep1 (env : Env) : List Scouter → Manager → List Scouter → List Nat →
    Option (Manager × List Nat)
  | [], m, done, deads => some ({ m with scouters := done }, deads)
  | sc :: rest, m, done, deads =>
    let np := env.moveTo sc.id
    if np = (sc.x, sc.y) then moveStep1 env rest m (done ++ [sc]) (deads ++ [sc.id])
    else
      let sc1 : Scouter := ⟨sc.id, np.1, np.2⟩
      if m.board.has_food np.1 np.2 then do
        let food ← getCoords m.knowledge "food"
        if np ∈ food then moveStep1 env rest m (done ++ [sc1]) deads
        else do
          let m1 ← food_discovered m np.1 np.2
          moveStep1 env rest m1 (done ++ [sc1]) deads
      else moveStep1 env rest m (done ++ [sc1]) deads

/-- Embedding of the grow pass of move (lines 97-99): diff calls of
add_scouter. -/
def growN (env : Env) : Nat → Manager → Option Manager
  | 0, m => some m
  | n + 1, m => (add_scouter env m).bind (growN env n)

/-- Embedding of the shrink pass of move (lines 101-103): -diff calls of
remove_scouter. -/
def shrinkN (env : Env) : Nat → Manager → Option Manager
  | 0, m => some m
  | n + 1, m => (remove_scouter env m).bind (shrinkN env n)

/-- Embedding of the dead replacement pass of move (lines 105-107): for every
queued dead scouter, list.remove it from the live list (ValueError, modelled
as none, when it is no longer there because the shrink pass already culled
it) and run one add_scouter. -/
def deadPass (env : Env) : List Nat → Manager → Option Manager
  | [], m => some m
  | d :: rest, m =>
    if m.scouters.any (fun sc => sc.id = d) then do
      let m1 ← add_scouter env { m with scouters := removeFirstId d m.scouters }
      deadPass env rest m1
    else none

/-- Embedding of BlobManager.move (lines 72-109), one simulation tick.  The
in-place mutations of the shared board by scouter.move and scouter.update are
reflected by installing the board observed by the environment before the tick
logic runs, and the final manage_blob call installs the decayed board after
reading its two knowledge parameters (a missing parameter is a KeyError at
this point, not earlier).  The bound of a Python range call must be an int,
so a fractional diff is the range TypeError, modelled as none. -/
def move (env : Env) (m0 : Manager) : Option Manager := do
  let m : Manager := { m0 with board := env.board1 }
  let s1 ← moveStep1 env m.scouters m [] []
  let m1 := s1.1
  let deads := s1.2
  let new_max ← compute_max_scouters m1
  let old_max ← getNum m1.knowledge "max_scouters"
  let m2 : Manager := { m1 with knowledge := setKey "max_scouters" (JValue.num new_max) m1.knowledge }
  let diff : Q := new_max - (m2.scouters.length : Q)
  let m3 ←
    if (0 : Q) < diff then
      if Q.isInt diff then growN env (Q.trunc diff).toNat m2 else none
    else if diff < (0 : Q) then
      if Q.isInt diff then shrinkN env (Q.trunc (-diff)).toNat m2 else none
    else pure m2
  let m4 ← deadPass env deads m3
  let gd ← getNum m4.knowledge "Global Decrease"
  let rbf ← getNum m4.knowledge "Remaining Blob on Food"
  return { m4 with board := env.board2 }

/-- The touched-cell list underlying the availables scan. -/
def touchedCells (b : Board) : List (Nat × Nat) :=
  (gridCells b).filter (fun c => b.is_touched c.1 c.2)

/-- Number of values of the uniform draw range of find_blob_square that make
it return the given cell. -/
def selectionCount (b : Board) (c : Nat × Nat) : Nat :=
  ((List.range (Q.trunc (total_blob b)).toNat).filter
    (fun v => decide (find_blob_square b v = some c))).length

/-- Truncation toward zero on rational numbers: the value of Python int(). -/
def ratTrunc (x : ℚ) : ℤ := if 0 ≤ x then ⌊x⌋ else ⌈x⌉

/-- The population target formula F of section 4.4 of the spec, written on
denoted rational values.  This definition follows the words of the spec and is
compared against the source computation compute_max_scouters. -/
def specF (b : Board) (bsf cf kff gf : Q) (foodCount : Nat) : ℚ :=
  (Q.val bsf * Q.val b.get_blob_total + Q.val cf * Q.val b.get_cover
      + Q.val kff * (foodCount : ℚ))
    * (Q.val gf * (((b.height : ℚ) * (b.width : ℚ)) / 100000))

/-- The strip of the two derived entries performed by save. -/
def stripDerived (d : Jdict) : Option Jdict :=
  (delKey "food" d).bind (delKey "max_scouters")

/-- A blank board: nothing touched, no food, no blob anywhere. -/
def blankBoard (w h : Nat) : Board :=
  ⟨w, h, fun _ _ => false, fun _ _ => false, fun _ _ => 0, 0, 0⟩

/-
Concrete instances used by witnesses and counterexamples.
-/

/-- A 10 by 10 board with no food, no touched cell and no blob. -/
def boardZero : Board := blankBoard 10 10

/-- A 1 by 2 board whose two cells are touched with blob mass zero. -/
def bTouch2 : Board := ⟨1, 2, fun _ _ => false, fun _ _ => true, fun _ _ => 0, 0, 0⟩

/-- A 1 by 5 board whose five cells are touched with blob mass zero. -/
def bTouch5 : Board := ⟨1, 5, fun _ _ => false, fun _ _ => true, fun _ _ => 0, 0, 0⟩

/-- A 1 by 3 board whose three cells are touched with blob masses 1, 0, 2
(weights 2, 1, 3). -/
def bW213 : Board :=
  ⟨1, 3, fun _ _ => false, fun _ _ => true,
   fun _ y => if y = 0 then 1 else if y = 1 then 0 else 2, 4, 3⟩

/-- A 100 by 100 board with total blob mass 5 (board aggregates are oracle
values of the external board). -/
def bArea : Board := ⟨100, 100, fun _ _ => false, fun _ _ => false, fun _ _ => 0, 5, 0⟩

/-- A 1 by 1 blank board whose covered-area aggregate is 200000. -/
def bCov2 : Board := ⟨1, 1, fun _ _ => false, fun _ _ => false, fun _ _ => 0, 0, 200000⟩

/-- A 1 by 1 blank board whose covered-area aggregate is 100000. -/
def bCov1 : Board := ⟨1, 1, fun _ _ => false, fun _ _ => false, fun _ _ => 0, 0, 100000⟩

/-- An environment on the zero board in which no scouter ever moves and every
random draw is 0. -/
def envZero : Env := ⟨fun _ => (0, 0), boardZero, boardZero, fun _ => 0⟩

/-- An environment observing bCov2. -/
def envCov2 : Env := ⟨fun _ => (0, 0), bCov2, bCov2, fun _ => 0⟩

/-- An environment observing bCov1. -/
def envCov1 : Env := ⟨fun _ => (0, 0), bCov1, bCov1, fun _ => 0⟩

/-- A complete knowledge document: all Computing factors 0 except a Global
Factor of 1, a scouter minimum of 2, decay parameters present. -/
def docFull : Jdict :=
  [("Computing", JValue.obj [("Blob Size Factor", 0), ("Covering Factor", 0),
      ("Known Foods Factor", 0), ("Global Factor", 1)]),
   ("Scouters", JValue.obj [("Min", 2)]),
   ("Global Decrease", JValue.num ⟨1, 10⟩),
   ("Remaining Blob on Food", JValue.num 1)]

/-- A knowledge document with every required field except Global Decrease. -/
def docNoGD : Jdict :=
  [("Computing", JValue.obj [("Blob Size Factor", 0), ("Covering Factor", 0),
      ("Known Foods Factor", 0), ("Global Factor", 1)]),
   ("Scouters", JValue.obj [("Min", 0)]),
   ("Remaining Blob on Food", JValue.num 1)]

/-- A knowledge document driving the shrink-culls-dead scenario: a covering
factor of 1, a global factor of 1 and a scouter minimum of 1, so that the
population target is the covered area scaled by the board area over 100000. -/
def docCov : Jdict :=
  [("Computing", JValue.obj [("Blob Size Factor", 0), ("Covering Factor", 1),
      ("Known Foods Factor", 0), ("Global Factor", 1)]),
   ("Scouters", JValue.obj [("Min", 1)]),
   ("Global Decrease", JValue.num 1),
   ("Remaining Blob on Food", JValue.num 0)]

/-- A knowledge document whose scouter minimum is 1, all factors zero except a
global factor of 1. -/
def docMin1 : Jdict :=
  [("Computing", JValue.obj [("Blob Size Factor", 0), ("Covering Factor", 0),
      ("Known Foods Factor", 0), ("Global Factor", 1)]),
   ("Scouters", JValue.obj [("Min", 1)]),
   ("Global Decrease", JValue.num 1),
   ("Remaining Blob on Food", JValue.num 0)]

/-- A knowledge document with a negative blob size factor and a negative
scouter minimum (both are type-correct field values: the factors and the
minimum are JSON numbers). -/
def docNeg : Jdict :=
  [("Computing", JValue.obj [("Blob Size Factor", ⟨-1, 1⟩), ("Covering Factor", 0),
      ("Known Foods Factor", 0), ("Global Factor", 1)]),
   ("Scouters", JValue.obj [("Min", ⟨-1, 1⟩)]),
   ("Global Decrease", JValue.num 1),
   ("Remaining Blob on Food", JValue.num 0)]

/-- The manager of the negative-factor scenario: the bArea board, the docNeg
document with an empty food entry, no scouters. -/
def mNeg : Manager :=
  ⟨bArea, setKey "food" (JValue.coords []) docNeg, [], 0, 0⟩

/-- The manager of the concrete target-formula scenario of the spec: zero
board, docFull, empty food entry, no scouters. -/
def mSpec4 : Manager :=
  ⟨boardZero, setKey "food" (JValue.coords []) docFull, [], 0, 0⟩

/-- A small manager whose food entry holds the single coordinate (0, 0). -/
def mFood1 : Manager :=
  ⟨boardZero, [("food", JValue.coords [(0, 0)])], [], 0, 0⟩

/-- A manager with two known food coordinates, one scouter and complete
knowledge entries. -/
def mTwoFood : Manager :=
  ⟨boardZero,
   setKey "max_scouters" (JValue.num 2)
     (setKey "food" (JValue.coords [(1, 2), (3, 4)]) docFull),
   [⟨0, 1, 2⟩, ⟨1, 5, 5⟩], 2, 2⟩

/-- A manager carrying the full knowledge document together with the two
derived entries, as after construction. -/
def mSaveA : Manager :=
  ⟨boardZero,
   docFull ++ [("food", JValue.coords [(0, 1)]), ("max_scouters", JValue.num 2)],
   [], 0, 0⟩

/-- The same knowledge as mSaveA with its keys in a different order. -/
def mSaveB : Manager :=
  ⟨boardZero,
   [("Scouters", JValue.obj [("Min", 2)]),
    ("Global Decrease", JValue.num ⟨1, 10⟩),
    ("max_scouters", JValue.num 2),
    ("food", JValue.coords [(0, 1)]),
    ("Computing", JValue.obj [("Blob Size Factor", 0), ("Covering Factor", 0),
      ("Known Foods Factor", 0), ("Global Factor", 1)]),
    ("Remaining Blob on Food", JValue.num 1)],
   [], 0, 0⟩

end BlobSim

/-
Helper lemmas.
-/

namespace BlobSim

theorem Q.den_cast_pos (q : Q) : (0 : ℚ) < ((q.den : ℕ) : ℚ) := by
  exact_mod_cast q.den.pos

theorem Q.den_cast_ne (q : Q) : ((q.den : ℕ) : ℚ) ≠ 0 :=
  ne_of_gt (Q.den_cast_pos q)

theorem Q.val_natCast (n : ℕ) : Q.val (n : Q) = (n : ℚ) := by
  show Q.val ⟨n, 1⟩ = (n : ℚ)
  simp [Q.val]

theorem Q.val_ofNat (n : ℕ) : Q.val (OfNat.ofNat n : Q) = (n : ℚ) := by
  show Q.val ⟨n, 1⟩ = (n : ℚ)
  simp [Q.val]

theorem Q.val_intCast (n : ℤ) : Q.val ((n : ℤ) : Q) = (n : ℚ) := by
  show Q.val ⟨n, 1⟩ = (n : ℚ)
  simp [Q.val]

theorem Q.val_mk (n : ℤ) (d : ℕ+) : Q.val ⟨n, d⟩ = (n : ℚ) / ((d : ℕ) : ℚ) := rfl

theorem Q.val_zero : Q.val (0 : Q) = 0 := by
  show Q.val ⟨0, 1⟩ = 0
  simp [Q.val]

theorem Q.val_one : Q.val (1 : Q) = 1 := by
  show Q.val ⟨1, 1⟩ = 1
  simp [Q.val]

theorem Q.val_add (a b : Q) : Q.val (a + b) = Q.val a + Q.val b := by
  show ((a.num * b.den + b.num * a.den : ℤ) : ℚ) / (((a.den * b.den : ℕ+) : ℕ) : ℚ)
      = (a.num : ℚ) / (a.den : ℕ) + (b.num : ℚ) / (b.den : ℕ)
  have ha := Q.den_cast_ne a
  have hb := Q.den_cast_ne b
  push_cast
  field_simp

theorem Q.val_mul (a b : Q) : Q.val (a * b) = Q.val a * Q.val b := by
  show ((a.num * b.num : ℤ) : ℚ) / (((a.den * b.den : ℕ+) : ℕ) : ℚ)
      = (a.num : ℚ) / (a.den : ℕ) * ((b.num : ℚ) / (b.den : ℕ))
  have ha := Q.den_cast_ne a
  have hb := Q.den_cast_ne b
  push_cast
  field_simp

theorem Q.val_neg (a : Q) : Q.val (-a) = -Q.val a := by
  show ((-a.num : ℤ) : ℚ) / ((a.den : ℕ) : ℚ) = -((a.num : ℚ) / (a.den : ℕ))
  push_cast
  ring

theorem Q.val_sub (a b : Q) : Q.val (a - b) = Q.val a - Q.val b := by
  show Q.val (a + -b) = Q.val a - Q.val b
  rw [Q.val_add, Q.val_neg]
  ring

theorem Q.val_div100000 (q : Q) : Q.val (Q.div100000 q) = Q.val q / 100000 := by
  show ((q.num : ℚ)) / (((q.den * 100000 : ℕ+) : ℕ) : ℚ) = (q.num : ℚ) / (q.den : ℕ) / 100000
  have ha := Q.den_cast_ne q
  push_cast
  field_simp

theorem Q.le_iff_val (a b : Q) : a ≤ b ↔ Q.val a ≤ Q.val b := by
  show a.num * (b.den : ℤ) ≤ b.num * (a.den : ℤ) ↔
    (a.num : ℚ) / (a.den : ℕ) ≤ (b.num : ℚ) / (b.den : ℕ)
  rw [div_le_div_iff₀ (Q.den_cast_pos a) (Q.den_cast_pos b)]
  constructor
  · intro h
    exact_mod_cast h
  · intro h
    exact_mod_cast h

theorem Q.lt_iff_val (a b : Q) : a < b ↔ Q.val a < Q.val b := by
  show a.num * (b.den : ℤ) < b.num * (a.den : ℤ) ↔
    (a.num : ℚ) / (a.den : ℕ) < (b.num : ℚ) / (b.den : ℕ)
  rw [div_lt_div_iff₀ (Q.den_cast_pos a) (Q.den_cast_pos b)]
  constructor
  · intro h
    exact_mod_cast h
  · intro h
    exact_mod_cast h

theorem Q.val_pymax (a b : Q) : Q.val (Q.pymax a b) = max (Q.val a) (Q.val b) := by
  unfold Q.pymax
  by_cases h : a < b
  · rw [if_pos h]
    exact (max_eq_right (le_of_lt ((Q.lt_iff_val a b).mp h))).symm
  · rw [if_neg h]
    have := (Q.lt_iff_val a b).not.mp h
    exact (max_eq_left (not_lt.mp this)).symm

theorem Q.floor_val (q : Q) : q.num / (q.den : ℤ) = ⌊Q.val q⌋ :=
  (Rat.floor_intCast_div_natCast q.num (q.den : ℕ)).symm

theorem Q.nonneg_num_iff (q : Q) : 0 ≤ q.num ↔ 0 ≤ Q.val q := by
  unfold Q.val
  rw [le_div_iff₀ (Q.den_cast_pos q)]
  simp only [zero_mul]
  constructor
  · intro h
    exact_mod_cast h
  · intro h
    exact_mod_cast h

theorem Q.trunc_eq_ratTrunc (q : Q) : Q.trunc q = ratTrunc (Q.val q) := by
  unfold Q.trunc ratTrunc
  by_cases h : 0 ≤ q.num
  · rw [if_pos h, if_pos ((Q.nonneg_num_iff q).mp h), Q.floor_val]
  · rw [if_neg h, if_neg (by rw [← Q.nonneg_num_iff q]; exact h)]
    have hneg : (-q.num) / ((-q : Q).den : ℤ) = ⌊Q.val (-q)⌋ := Q.floor_val (-q)
    have hden : ((-q : Q).den : ℤ) = (q.den : ℤ) := rfl
    rw [hden] at hneg
    rw [hneg, Q.val_neg, Int.floor_neg, neg_neg]

theorem ratTrunc_of_nonneg (x : ℚ) (h : 0 ≤ x) : ratTrunc x = ⌊x⌋ := by
  unfold ratTrunc
  rw [if_pos h]

theorem Q.isInt_trunc_val (q : Q) (h : Q.isInt q) : (Q.trunc q : ℚ) = Q.val q := by
  unfold Q.isInt at h
  obtain ⟨k, hk⟩ : ((q.den : ℕ) : ℤ) ∣ q.num := Int.dvd_of_emod_eq_zero h
  have hval : Q.val q = (k : ℚ) := by
    unfold Q.val
    rw [hk]
    push_cast
    field_simp
  rw [Q.trunc_eq_ratTrunc, hval]
  have : ratTrunc (k : ℚ) = k := by
    unfold ratTrunc
    by_cases hh : 0 ≤ (k : ℚ)
    · rw [if_pos hh, Int.floor_intCast]
    · rw [if_neg hh, Int.ceil_intCast]
  rw [this]

theorem Q.val_natCast_le (v : Nat) (a : Q) :
    ((v : Nat) : Q) ≤ a ↔ ((v : ℚ) ≤ Q.val a) := by
  rw [Q.le_iff_val, Q.val_natCast]

theorem mem_gridCells (b : Board) (c : Nat × Nat) :
    c ∈ gridCells b ↔ c.1 < b.width ∧ c.2 < b.height := by
  unfold gridCells
  constructor
  · intro h
    obtain ⟨x, hx, hc⟩ := List.mem_flatMap.mp h
    obtain ⟨y, hy, hcy⟩ := List.mem_map.mp hc
    subst hcy
    exact ⟨List.mem_range.mp hx, List.mem_range.mp hy⟩
  · intro ⟨h1, h2⟩
    refine List.mem_flatMap.mpr ⟨c.1, List.mem_range.mpr h1, ?_⟩
    exact List.mem_map.mpr ⟨c.2, List.mem_range.mpr h2, rfl⟩

theorem mem_availables (b : Board) (p : (Nat × Nat) × Q) (h : p ∈ availables b) :
    b.is_touched p.1.1 p.1.2 = true ∧ p.1.1 < b.width ∧ p.1.2 < b.height ∧
    p.2 = b.get_blob p.1.1 p.1.2 + 1 := by
  unfold availables at h
  obtain ⟨c, hc, hp⟩ := List.mem_map.mp h
  obtain ⟨hcg, hct⟩ := List.mem_filter.mp hc
  subst hp
  obtain ⟨hw, hh⟩ := (mem_gridCells b c).mp hcg
  exact ⟨by simpa using hct, hw, hh, rfl⟩

theorem weight_ge_one (b : Board) (hblob : ∀ x y, 0 ≤ Q.val (b.get_blob x y))
    (p : (Nat × Nat) × Q) (h : p ∈ availables b) : 1 ≤ Q.val p.2 := by
  obtain ⟨_, _, _, hp⟩ := mem_availables b p h
  rw [hp, Q.val_add, Q.val_one]
  have := hblob p.1.1 p.1.2
  linarith

theorem foldl_weights_ge {α : Type} (l : List (α × Q))
    (h : ∀ p ∈ l, 1 ≤ Q.val p.2) (acc : Q) :
    Q.val acc + l.length ≤ Q.val (l.foldl (fun a p => a + p.2) acc) := by
  induction l generalizing acc with
  | nil => simp
  | cons p rest ih =>
    have h1 : 1 ≤ Q.val p.2 := h p (by simp)
    have h2 := ih (fun q hq => h q (by simp [hq])) (acc + p.2)
    rw [Q.val_add] at h2
    simp only [List.foldl_cons, List.length_cons]
    push_cast
    linarith

theorem pickLoop_mem (l : List ((Nat × Nat) × Q)) (v : Nat) (acc : Q)
    (hl : l ≠ []) (hv : (v : ℚ) ≤ Q.val (l.foldl (fun a p => a + p.2) acc)) :
    ∃ p ∈ l, pickLoop v acc l = some p.1 := by
  revert hl hv
  induction l generalizing acc with
  | nil => exact fun hl _ => absurd rfl hl
  | cons p rest ih =>
    intro hl hv
    by_cases hc : (((v : Nat) : Q) ≤ acc + p.2)
    · exact ⟨p, by simp, by simp [pickLoop, hc]⟩
    · have hstep : pickLoop v acc (p :: rest) = pickLoop v (acc + p.2) rest := by
        simp [pickLoop, hc]
      rcases rest with _ | ⟨q, rest2⟩
      · exfalso
        apply hc
        rw [Q.val_natCast_le]
        simpa using hv
      · obtain ⟨r, hr, hpr⟩ := ih (acc + p.2) (by simp) (by simpa using hv)
        exact ⟨r, by simp [hr], by rw [hstep]; exact hpr⟩

theorem total_blob_ge_length (b : Board) (hblob : ∀ x y, 0 ≤ Q.val (b.get_blob x y)) :
    ((availables b).length : ℚ) ≤ Q.val (total_blob b) := by
  have := foldl_weights_ge (availables b) (weight_ge_one b hblob) 0
  rw [Q.val_zero] at this
  unfold total_blob
  linarith

theorem compute_none_of_missing (m : Manager)
    (h : getNested m.knowledge "Computing" "Blob Size Factor" = none
       ∨ getNested m.knowledge "Computing" "Covering Factor" = none
       ∨ getNested m.knowledge "Computing" "Known Foods Factor" = none
       ∨ getNested m.knowledge "Computing" "Global Factor" = none
       ∨ getNested m.knowledge "Scouters" "Min" = none) :
    compute_max_scouters m = none := by
  unfold compute_max_scouters
  rcases h with h | h | h | h | h
  · simp [h]
  · cases h1 : getNested m.knowledge "Computing" "Blob Size Factor" <;> simp [h1, h]
  · cases h1 : getNested m.knowledge "Computing" "Blob Size Factor" <;>
      cases h2 : getNested m.knowledge "Computing" "Covering Factor" <;> simp [h1, h2, h]
  · cases h1 : getNested m.knowledge "Computing" "Blob Size Factor" <;>
      cases h2 : getNested m.knowledge "Computing" "Covering Factor" <;>
      cases h3 : getNested m.knowledge "Computing" "Known Foods Factor" <;>
      cases h4 : getCoords m.knowledge "food" <;> simp [h1, h2, h3, h4, h]
  · cases h1 : getNested m.knowledge "Computing" "Blob Size Factor" <;>
      cases h2 : getNested m.knowledge "Computing" "Covering Factor" <;>
      cases h3 : getNested m.knowledge "Computing" "Known Foods Factor" <;>
      cases h4 : getCoords m.knowledge "food" <;>
      cases h5 : getNested m.knowledge "Computing" "Global Factor" <;>
      simp [h1, h2, h3, h4, h5, h]

theorem lookupPair_setKey_self (k : String) (v : JValue) (d : Jdict) :
    lookupPair k (setKey k v d) = some v := by
  induction d with
  | nil => simp [setKey, lookupPair]
  | cons p rest ih =>
    obtain ⟨k1, v1⟩ := p
    by_cases h : k1 = k <;> simp [setKey, lookupPair, h, ih]

theorem lookupPair_setKey_ne (k k2 : String) (v : JValue) (d : Jdict) (h : k2 ≠ k) :
    lookupPair k2 (setKey k v d) = lookupPair k2 d := by
  have hks : k ≠ k2 := Ne.symm h
  induction d with
  | nil => simp [setKey, lookupPair, hks]
  | cons p rest ih =>
    obtain ⟨k1, v1⟩ := p
    by_cases h1 : k1 = k
    · subst h1
      simp [setKey, lookupPair, hks]
    · simp [setKey, lookupPair, h1, ih]

theorem getNested_setKey_ne (k k1 k2 : String) (v : JValue) (d : Jdict) (h : k1 ≠ k) :
    getNested (setKey k v d) k1 k2 = getNested d k1 k2 := by
  unfold getNested
  rw [lookupPair_setKey_ne k k1 v d h]

theorem getCoords_setKey_food (d : Jdict) (cs : List (Nat × Nat)) :
    getCoords (setKey "food" (JValue.coords cs) d) "food" = some cs := by
  simp [getCoords, lookupPair_setKey_self]

theorem delKey_isSome_of_lookup (k : String) (d : Jdict) (v : JValue)
    (h : lookupPair k d = some v) : ∃ d', delKey k d = some d' := by
  induction d with
  | nil => simp [lookupPair] at h
  | cons p rest ih =>
    obtain ⟨k1, v1⟩ := p
    by_cases h1 : k1 = k
    · exact ⟨rest, by simp [delKey, h1]⟩
    · simp [lookupPair, h1] at h
      obtain ⟨d', hd⟩ := ih h
      exact ⟨(k1, v1) :: d', by simp [delKey, h1, hd]⟩

theorem lookupPair_delKey_ne (k k2 : String) (d d' : Jdict)
    (h : delKey k d = some d') (hne : k2 ≠ k) :
    lookupPair k2 d' = lookupPair k2 d := by
  induction d generalizing d' with
  | nil => simp [delKey] at h
  | cons p rest ih =>
    obtain ⟨k1, v1⟩ := p
    by_cases h1 : k1 = k
    · simp [delKey, h1] at h
      subst h
      subst h1
      simp [lookupPair, Ne.symm hne]
    · simp [delKey, h1] at h
      obtain ⟨d2, hd2, hcons⟩ := h
      subst hcons
      by_cases h2 : k1 = k2
      · simp [lookupPair, h2]
      · simp [lookupPair, h2, ih d2 hd2]

theorem char_eq_of_toNat_eq (a b : Char) (h : a.toNat = b.toNat) : a = b := by
  apply Char.eq_of_val_eq
  exact UInt32.toNat.inj h

theorem string_eq_of_data_eq (a b : String) (h : a.data = b.data) : a = b := by
  cases a
  cases b
  exact congrArg String.mk h

theorem strLeB_total : ∀ a b : List Char, strLeB a b = true ∨ strLeB b a = true := by
  intro a
  induction a with
  | nil => intro b; exact Or.inl rfl
  | cons c as ih =>
    intro b
    cases b with
    | nil => exact Or.inr rfl
    | cons d bs =>
      by_cases h1 : c.toNat < d.toNat
      · exact Or.inl (by rw [strLeB, if_pos h1])
      · by_cases h2 : d.toNat < c.toNat
        · exact Or.inr (by rw [strLeB, if_pos h2])
        · rcases ih bs with h | h
          · exact Or.inl (by rw [strLeB, if_neg h1, if_neg h2]; exact h)
          · exact Or.inr (by rw [strLeB, if_neg h2, if_neg h1]; exact h)

theorem strLeB_antisym : ∀ a b : List Char, strLeB a b = true → strLeB b a = true → a = b := by
  intro a
  induction a with
  | nil =>
    intro b h1 h2
    cases b with
    | nil => rfl
    | cons d bs => cases h2
  | cons c as ih =>
    intro b h1 h2
    cases b with
    | nil => cases h1
    | cons d bs =>
      by_cases hcd : c.toNat < d.toNat
      · rw [strLeB, if_neg (by omega), if_pos hcd] at h2
        cases h2
      · by_cases hdc : d.toNat < c.toNat
        · rw [strLeB, if_neg hcd, if_pos hdc] at h1
          cases h1
        · have hc : c = d := char_eq_of_toNat_eq c d (by omega)
          subst hc
          rw [strLeB, if_neg (by omega), if_neg (by omega)] at h1
          rw [strLeB, if_neg (by omega), if_neg (by omega)] at h2
          rw [ih bs h1 h2]

theorem strLeB_trans : ∀ a b c : List Char,
    strLeB a b = true → strLeB b c = true → strLeB a c = true := by
  intro a
  induction a with
  | nil => intro b c _ _; rfl
  | cons x as ih =>
    intro b c h1 h2
    cases b with
    | nil => cases h1
    | cons y bs =>
      cases c with
      | nil => cases h2
      | cons z cs =>
        by_cases hxy : x.toNat < y.toNat
        · by_cases hyz : y.toNat < z.toNat
          · rw [strLeB, if_pos (by omega)]
          · by_cases hzy : z.toNat < y.toNat
            · rw [strLeB, if_neg hyz, if_pos hzy] at h2
              cases h2
            · rw [strLeB, if_pos (by omega)]
        · by_cases hyx : y.toNat < x.toNat
          · rw [strLeB, if_neg hxy, if_pos hyx] at h1
            cases h1
          · rw [strLeB, if_neg hxy, if_neg hyx] at h1
            by_cases hyz : y.toNat < z.toNat
            · rw [strLeB, if_pos (by omega)]
            · by_cases hzy : z.toNat < y.toNat
              · rw [strLeB, if_neg hyz, if_pos hzy] at h2
                cases h2
              · rw [strLeB, if_neg hyz, if_neg hzy] at h2
                rw [strLeB, if_neg (by omega), if_neg (by omega)]
                exact ih bs cs h1 h2

theorem keyLe_total (a b : String) : keyLe a b = true ∨ keyLe b a = true :=
  strLeB_total a.data b.data

theorem keyLe_antisym (a b : String) (h1 : keyLe a b = true) (h2 : keyLe b a = true) :
    a = b :=
  string_eq_of_data_eq a b (strLeB_antisym a.data b.data h1 h2)

theorem keyLe_trans (a b c : String) (h1 : keyLe a b = true) (h2 : keyLe b c = true) :
    keyLe a c = true :=
  strLeB_trans a.data b.data c.data h1 h2

theorem keyLe_false_of (a b : String) (hne : a ≠ b) (h : keyLe a b = true) :
    keyLe b a = false := by
  cases hq : keyLe b a with
  | false => rfl
  | true => exact absurd (keyLe_antisym a b h hq) hne

theorem insertPair_perm {β : Type} (p : String × β) (l : List (String × β)) :
    List.Perm (insertPair p l) (p :: l) := by
  induction l with
  | nil => exact List.Perm.refl _
  | cons q rest ih =>
    rw [insertPair]
    by_cases h : keyLe p.1 q.1
    · rw [if_pos h]
    · rw [if_neg h]
      exact (ih.cons q).trans (List.Perm.swap p q rest)

theorem sortPairs_perm {β : Type} (l : List (String × β)) :
    List.Perm (sortPairs l) l := by
  induction l with
  | nil => exact List.Perm.refl _
  | cons p rest ih =>
    rw [sortPairs]
    exact (insertPair_perm p (sortPairs rest)).trans (ih.cons p)

theorem insertPair_comm_aux {β : Type} (p q : String × β)
    (hpq : keyLe p.1 q.1 = true) (hqp : keyLe q.1 p.1 = false) :
    ∀ l, insertPair p (insertPair q l) = insertPair q (insertPair p l) := by
  intro l
  induction l with
  | nil =>
    show insertPair p [q] = insertPair q [p]
    rw [insertPair, if_pos hpq, insertPair, if_neg (by rw [hqp]; exact Bool.false_ne_true)]
    rfl
  | cons r t ih =>
    by_cases hqr : keyLe q.1 r.1 = true
    · have hpr : keyLe p.1 r.1 = true := keyLe_trans _ _ _ hpq hqr
      rw [insertPair, if_pos hqr]
      rw [insertPair, if_pos hpq]
      rw [insertPair, if_pos hpr]
      rw [insertPair, if_neg (by rw [hqp]; exact Bool.false_ne_true)]
      rw [insertPair, if_pos hqr]
    · by_cases hpr : keyLe p.1 r.1 = true
      · rw [insertPair, if_neg hqr]
        rw [insertPair, if_pos hpr]
        rw [insertPair, if_pos hpr]
        rw [insertPair, if_neg (by rw [hqp]; exact Bool.false_ne_true)]
        rw [insertPair, if_neg hqr]
      · rw [insertPair, if_neg hqr]
        rw [insertPair, if_neg hpr]
        rw [insertPair, if_neg hpr]
        rw [insertPair, if_neg hqr]
        rw [ih]

theorem insertPair_comm {β : Type} (p q : String × β) (hpq : p.1 ≠ q.1)
    (l : List (String × β)) :
    insertPair p (insertPair q l) = insertPair q (insertPair p l) := by
  rcases keyLe_total p.1 q.1 with h | h
  · exact insertPair_comm_aux p q h (keyLe_false_of _ _ hpq h) l
  · exact (insertPair_comm_aux q p h (keyLe_false_of _ _ (Ne.symm hpq) h) l).symm

theorem sortPairs_perm_eq {β : Type} (l1 l2 : List (String × β))
    (hperm : List.Perm l1 l2) :
    (l1.map Prod.fst).Nodup → sortPairs l1 = sortPairs l2 := by
  induction hperm with
  | nil => intro _; rfl
  | cons x h ih =>
    intro hnd
    rw [List.map_cons, List.nodup_cons] at hnd
    rw [sortPairs, sortPairs, ih hnd.2]
  | swap x y l =>
    intro hnd
    rw [List.map_cons, List.map_cons, List.nodup_cons, List.nodup_cons] at hnd
    have hne : y.1 ≠ x.1 := by
      intro he
      exact hnd.1 (by rw [he]; exact List.mem_cons_self _ _)
    show insertPair y (insertPair x (sortPairs l)) = insertPair x (insertPair y (sortPairs l))
    exact insertPair_comm y x hne (sortPairs l)
  | trans h1 h2 ih1 ih2 =>
    intro hnd
    rw [ih1 hnd]
    apply ih2
    exact ((h1.map Prod.fst).nodup_iff).mp hnd

theorem dumps_perm_eq (d1 d2 : Jdict) (hperm : List.Perm d1 d2)
    (hnd : (d1.map Prod.fst).Nodup) : dumps d1 = dumps d2 := by
  unfold dumps
  have hs : sortPairs d1 = sortPairs d2 := sortPairs_perm_eq d1 d2 hperm hnd
  have hemp : d1.isEmpty = d2.isEmpty := by
    have hlen := hperm.length_eq
    cases d1 <;> cases d2 <;> simp_all
  rw [hs, hemp]

theorem lookupPair_isSome_of_mem {β : Type} (k : String) (d : List (String × β))
    (h : k ∈ d.map Prod.fst) : ∃ v, lookupPair k d = some v := by
  induction d with
  | nil => cases h
  | cons p rest ih =>
    rw [List.map_cons, List.mem_cons] at h
    by_cases h1 : p.1 = k
    · exact ⟨p.2, by rw [show p = (p.1, p.2) from rfl, lookupPair, if_pos h1]⟩
    · rcases h with h | h
      · exact absurd h.symm h1
      · obtain ⟨v, hv⟩ := ih h
        exact ⟨v, by rw [show p = (p.1, p.2) from rfl, lookupPair, if_neg h1]; exact hv⟩

theorem lookupPair_append_of_absent {β : Type} (k : String) (d l : List (String × β))
    (h : lookupPair k d = none) : lookupPair k (d ++ l) = lookupPair k l := by
  induction d with
  | nil => rfl
  | cons p rest ih =>
    rw [show p = (p.1, p.2) from rfl, lookupPair] at h
    by_cases h1 : p.1 = k
    · rw [if_pos h1] at h
      cases h
    · rw [if_neg h1] at h
      rw [List.cons_append, show p = (p.1, p.2) from rfl, lookupPair, if_neg h1]
      exact ih h

theorem setKey_append_of_absent (k : String) (v : JValue) (d : Jdict)
    (h : lookupPair k d = none) : setKey k v d = d ++ [(k, v)] := by
  induction d with
  | nil => rfl
  | cons p rest ih =>
    obtain ⟨k1, v1⟩ := p
    by_cases h1 : k1 = k
    · rw [lookupPair, if_pos h1] at h
      cases h
    · rw [lookupPair, if_neg h1] at h
      rw [setKey, if_neg h1, ih h]
      rfl

theorem delKey_append_of_absent (k : String) (d l : Jdict)
    (h : lookupPair k d = none) :
    delKey k (d ++ l) = (delKey k l).map (fun e => d ++ e) := by
  induction d with
  | nil => simp
  | cons p rest ih =>
    obtain ⟨k1, v1⟩ := p
    by_cases h1 : k1 = k
    · rw [lookupPair, if_pos h1] at h
      cases h
    · rw [lookupPair, if_neg h1] at h
      rw [List.cons_append, delKey, if_neg h1, ih h]
      cases delKey k l <;> simp

theorem lookupPair_none_of_not_mem {β : Type} (k : String) (d : List (String × β))
    (h : k ∉ d.map Prod.fst) : lookupPair k d = none := by
  induction d with
  | nil => rfl
  | cons p rest ih =>
    rw [List.map_cons, List.mem_cons] at h
    push_neg at h
    rw [lookupPair, if_neg (fun hh => h.1 hh.symm)]
    exact ih h.2

theorem lookupPair_delKey_self (k : String) :
    ∀ (d e : Jdict), (d.map Prod.fst).Nodup → delKey k d = some e →
      lookupPair k e = none := by
  intro d
  induction d with
  | nil => intro e _ h; cases h
  | cons p rest ih =>
    intro e hnd h
    obtain ⟨k1, v1⟩ := p
    rw [List.map_cons, List.nodup_cons] at hnd
    by_cases h1 : k1 = k
    · rw [delKey, if_pos h1] at h
      cases h
      subst h1
      exact lookupPair_none_of_not_mem k1 rest hnd.1
    · rw [delKey, if_neg h1] at h
      cases hrest : delKey k rest with
      | none => rw [hrest] at h; cases h
      | some e2 =>
        rw [hrest] at h
        simp only [Option.map_some'] at h
        cases h
        rw [lookupPair, if_neg h1]
        exact ih e2 hnd.2 hrest

theorem delKey_eq_filter (k : String) :
    ∀ (d e : Jdict), (d.map Prod.fst).Nodup → delKey k d = some e →
      e = d.filter (fun p => !(p.1 == k)) := by
  intro d
  induction d with
  | nil => intro e _ h; cases h
  | cons p rest ih =>
    intro e hnd h
    obtain ⟨k1, v1⟩ := p
    rw [List.map_cons, List.nodup_cons] at hnd
    by_cases h1 : k1 = k
    · rw [delKey, if_pos h1] at h
      cases h
      subst h1
      rw [List.filter_cons, if_neg (by simp)]
      symm
      apply List.filter_eq_self.mpr
      intro a ha
      have hne : a.1 ≠ k1 := by
        intro he
        apply hnd.1
        have hmm := List.mem_map_of_mem Prod.fst ha
        rw [he] at hmm
        exact hmm
      simpa using hne
    · rw [delKey, if_neg h1] at h
      cases hrest : delKey k rest with
      | none => rw [hrest] at h; cases h
      | some e2 =>
        rw [hrest] at h
        simp only [Option.map_some'] at h
        cases h
        rw [List.filter_cons, if_pos (by simpa using h1)]
        rw [ih e2 hnd.2 hrest]

theorem mem_of_delKey_some (k : String) :
    ∀ (d e : Jdict), delKey k d = some e → k ∈ d.map Prod.fst := by
  intro d
  induction d with
  | nil => intro e h; cases h
  | cons p rest ih =>
    intro e h
    by_cases h1 : p.1 = k
    · rw [List.map_cons]
      rw [← h1]
      exact List.mem_cons_self _ _
    · rw [show p = (p.1, p.2) from rfl, delKey, if_neg h1] at h
      cases hrest : delKey k rest with
      | none => rw [hrest] at h; cases h
      | some e2 =>
        rw [List.map_cons, List.mem_cons]
        exact Or.inr (ih e2 hrest)

theorem scanFood_blank (w h : Nat) : scanFood (blankBoard w h) = [] := by
  unfold scanFood
  apply List.filter_eq_nil_iff.mpr
  intro c hc
  simp [blankBoard]

theorem add_scouter_spec (env : Env) (m : Manager) (mx : Q)
    (hmx : getNum m.knowledge "max_scouters" = some mx) :
    (((m.scouters.length : Q) < mx) → ∀ m', add_scouter env m = some m' →
       m'.knowledge = m.knowledge ∧ m'.board = m.board ∧
       m'.scouters.length = m.scouters.length + 1) ∧
    (¬((m.scouters.length : Q) < mx) → add_scouter env m = some m) := by
  constructor
  · intro hlt m' h
    unfold add_scouter at h
    rw [hmx] at h
    simp only [Option.bind_eq_bind, Option.some_bind, if_pos hlt] at h
    cases hfood : getCoords m.knowledge "food" with
    | none => rw [hfood] at h; cases h
    | some food =>
      rw [hfood] at h
      simp only [Option.bind_eq_bind, Option.some_bind] at h
      cases hpos : (if food.length ≠ 0 then food[env.pick m.rng % food.length]?
          else find_blob_square m.board (env.pick m.rng)) with
      | none => rw [hpos] at h; cases h
      | some pos =>
        rw [hpos] at h
        simp only [Option.bind_eq_bind, Option.some_bind, Option.pure_def,
          Option.some_inj] at h
        subst h
        exact ⟨rfl, rfl, by simp⟩
  · intro hge
    unfold add_scouter
    rw [hmx]
    simp only [Option.bind_eq_bind, Option.some_bind, if_neg hge]
    rfl

theorem spawnLoop_frame (env : Env) (fuel : Nat) (m m' : Manager)
    (h : spawnLoop env fuel m = some m') :
    m'.knowledge = m.knowledge ∧ m'.board = m.board := by
  induction fuel generalizing m with
  | zero => cases h
  | succ n ih =>
    unfold spawnLoop at h
    cases hmx : getNum m.knowledge "max_scouters" with
    | none => rw [hmx] at h; cases h
    | some mx =>
      rw [hmx] at h
      simp only [Option.bind_eq_bind, Option.some_bind] at h
      by_cases hlt : ((m.scouters.length : Q) < mx)
      · rw [if_pos hlt] at h
        cases hadd : add_scouter env m with
        | none => rw [hadd] at h; cases h
        | some m1 =>
          rw [hadd] at h
          simp only [Option.bind_eq_bind, Option.some_bind] at h
          obtain ⟨hk, hb, _⟩ := (add_scouter_spec env m mx hmx).1 hlt m1 hadd
          obtain ⟨hk2, hb2⟩ := ih m1 h
          exact ⟨hk2.trans hk, hb2.trans hb⟩
      · rw [if_neg hlt] at h
        simp only [Option.pure_def, Option.some_inj] at h
        subst h
        exact ⟨rfl, rfl⟩

theorem Q.isInt_neg (q : Q) (h : q.isInt) : (-q).isInt := by
  unfold Q.isInt at h ⊢
  show (-q.num) % (q.den : ℤ) = 0
  have hd : ((q.den : ℕ) : ℤ) ∣ q.num := Int.dvd_of_emod_eq_zero h
  exact Int.emod_eq_zero_of_dvd (Dvd.dvd.neg_right hd)

theorem Q.natCast_lt_iff (n : Nat) (a : Q) :
    ((n : Nat) : Q) < a ↔ ((n : ℚ) < Q.val a) := by
  rw [Q.lt_iff_val, Q.val_natCast]

theorem remove_scouter_spec (env : Env) (m m' : Manager)
    (h : remove_scouter env m = some m') :
    m'.knowledge = m.knowledge ∧ m'.board = m.board ∧
    m'.scouters.length + 1 = m.scouters.length := by
  unfold remove_scouter at h
  by_cases h0 : m.scouters.length = 0
  · rw [if_pos h0] at h
    cases h
  · rw [if_neg h0] at h
    cases h
    refine ⟨rfl, rfl, ?_⟩
    have hlt : env.pick m.rng % m.scouters.length < m.scouters.length :=
      Nat.mod_lt _ (Nat.pos_of_ne_zero h0)
    simp only [List.length_eraseIdx, if_pos hlt]
    omega

theorem growN_spec (env : Env) :
    ∀ (n : Nat) (m m' : Manager) (mx : Q),
      getNum m.knowledge "max_scouters" = some mx →
      ((m.scouters.length + n : ℚ) ≤ Q.val mx) →
      growN env n m = some m' →
      m'.knowledge = m.knowledge ∧ m'.board = m.board ∧
      m'.scouters.length = m.scouters.length + n := by
  intro n
  induction n with
  | zero =>
    intro m m' mx hmx hle h
    cases h
    exact ⟨rfl, rfl, rfl⟩
  | succ k ih =>
    intro m m' mx hmx hle h
    rw [growN] at h
    cases hadd : add_scouter env m with
    | none => rw [hadd] at h; cases h
    | some m1 =>
      rw [hadd] at h
      simp only [Option.some_bind] at h
      have hlt : ((m.scouters.length : Nat) : Q) < mx := by
        rw [Q.natCast_lt_iff]
        push_cast at hle ⊢
        linarith
      obtain ⟨hk1, hb1, hl1⟩ := (add_scouter_spec env m mx hmx).1 hlt m1 hadd
      have hmx1 : getNum m1.knowledge "max_scouters" = some mx := by rw [hk1]; exact hmx
      have hle1 : ((m1.scouters.length + k : ℚ) ≤ Q.val mx) := by
        rw [hl1]
        push_cast at hle ⊢
        linarith
      obtain ⟨hk2, hb2, hl2⟩ := ih m1 m' mx hmx1 hle1 h
      exact ⟨hk2.trans hk1, hb2.trans hb1, by omega⟩

theorem shrinkN_spec (env : Env) :
    ∀ (n : Nat) (m m' : Manager),
      shrinkN env n m = some m' →
      m'.knowledge = m.knowledge ∧ m'.board = m.board ∧
      m'.scouters.length + n = m.scouters.length := by
  intro n
  induction n with
  | zero =>
    intro m m' h
    cases h
    exact ⟨rfl, rfl, rfl⟩
  | succ k ih =>
    intro m m' h
    rw [shrinkN] at h
    cases hrem : remove_scouter env m with
    | none => rw [hrem] at h; cases h
    | some m1 =>
      rw [hrem] at h
      simp only [Option.some_bind] at h
      obtain ⟨hk1, hb1, hl1⟩ := remove_scouter_spec env m m1 hrem
      obtain ⟨hk2, hb2, hl2⟩ := ih m1 m' h
      exact ⟨hk2.trans hk1, hb2.trans hb1, by omega⟩

theorem removeFirstId_length_of_any (d : Nat) :
    ∀ l : List Scouter, l.any (fun sc => sc.id = d) = true →
      (removeFirstId d l).length + 1 = l.length := by
  intro l
  induction l with
  | nil => intro h; cases h
  | cons sc rest ih =>
    intro h
    rw [removeFirstId]
    by_cases h1 : sc.id = d
    · rw [if_pos h1]
      rfl
    · rw [if_neg h1]
      rw [List.any_cons] at h
      have h2 : rest.any (fun sc => sc.id = d) = true := by
        cases hh : rest.any (fun sc => sc.id = d)
        · simp [hh, h1] at h
        · rfl
      simp only [List.length_cons]
      rw [← ih h2]

theorem deadPass_spec (env : Env) :
    ∀ (ds : List Nat) (m m' : Manager) (mx : Q),
      getNum m.knowledge "max_scouters" = some mx →
      ((m.scouters.length : ℚ) = Q.val mx) →
      deadPass env ds m = some m' →
      m'.knowledge = m.knowledge ∧ m'.board = m.board ∧
      m'.scouters.length = m.scouters.length := by
  intro ds
  induction ds with
  | nil =>
    intro m m' mx hmx hlen h
    cases h
    exact ⟨rfl, rfl, rfl⟩
  | cons d rest ih =>
    intro m m' mx hmx hlen h
    rw [deadPass] at h
    by_cases hany : m.scouters.any (fun sc => sc.id = d) = true
    · rw [if_pos hany] at h
      have hrm := removeFirstId_length_of_any d m.scouters hany
      have hpos : 0 < m.scouters.length := by omega
      cases hadd : add_scouter env { m with scouters := removeFirstId d m.scouters } with
      | none => rw [hadd] at h; cases h
      | some m1 =>
        rw [hadd] at h
        simp only [Option.bind_eq_bind, Option.some_bind] at h
        have hlt : (((removeFirstId d m.scouters).length : Nat) : Q) < mx := by
          rw [Q.natCast_lt_iff, ← hlen]
          have : (removeFirstId d m.scouters).length < m.scouters.length := by omega
          exact_mod_cast this
        obtain ⟨hk1, hb1, hl1⟩ :=
          (add_scouter_spec env { m with scouters := removeFirstId d m.scouters } mx hmx).1
            hlt m1 hadd
        have hmx1 : getNum m1.knowledge "max_scouters" = some mx := by rw [hk1]; exact hmx
        have hlen1 : ((m1.scouters.length : ℚ) = Q.val mx) := by
          rw [hl1]
          show (((removeFirstId d m.scouters).length + 1 : Nat) : ℚ) = Q.val mx
          rw [← hlen]
          exact_mod_cast congrArg (fun n : Nat => (n : ℚ)) hrm
        obtain ⟨hk2, hb2, hl2⟩ := ih m1 m' mx hmx1 hlen1 h
        refine ⟨hk2.trans hk1, hb2.trans hb1, ?_⟩
        rw [hl2, hl1]
        exact hrm
    · rw [if_neg hany] at h
      cases h

theorem moveStep1_spec (env : Env) :
    ∀ (pending : List Scouter) (m : Manager) (done : List Scouter) (deads : List Nat)
      (m' : Manager) (ds : List Nat),
      moveStep1 env pending m done deads = some (m', ds) →
      m'.scouters.length = done.length + pending.length ∧
      m'.board = m.board ∧
      (∀ k, k ≠ "food" → lookupPair k m'.knowledge = lookupPair k m.knowledge) := by
  intro pending
  induction pending with
  | nil =>
    intro m done deads m' ds h
    rw [moveStep1] at h
    simp only [Option.some_inj, Prod.mk.injEq] at h
    obtain ⟨hm, _⟩ := h
    subst hm
    exact ⟨by simp, rfl, fun k _ => rfl⟩
  | cons sc rest ih =>
    intro m done deads m' ds h
    rw [moveStep1] at h
    by_cases hdead : env.moveTo sc.id = (sc.x, sc.y)
    · rw [if_pos hdead] at h
      obtain ⟨h1, h2, h3⟩ := ih m (done ++ [sc]) (deads ++ [sc.id]) m' ds h
      refine ⟨by simp at h1 ⊢; omega, h2, h3⟩
    · rw [if_neg hdead] at h
      by_cases hfoodcell : m.board.has_food (env.moveTo sc.id).1 (env.moveTo sc.id).2 = true
      · rw [if_pos hfoodcell] at h
        simp only [Option.bind_eq_bind, Option.bind_eq_some] at h
        obtain ⟨food, hfood, h⟩ := h
        by_cases hin : (env.moveTo sc.id) ∈ food
        · rw [if_pos hin] at h
          obtain ⟨h1, h2, h3⟩ := ih m (done ++ [⟨sc.id, (env.moveTo sc.id).1,
            (env.moveTo sc.id).2⟩]) deads m' ds h
          refine ⟨by simp at h1 ⊢; omega, h2, h3⟩
        · rw [if_neg hin] at h
          simp only [Option.bind_eq_some] at h
          obtain ⟨m1, hm1, h⟩ := h
          rw [food_discovered, hfood] at hm1
          simp only [Option.bind_eq_bind, Option.some_bind, Option.pure_def,
            Option.some_inj] at hm1
          obtain ⟨h1, h2, h3⟩ := ih m1 (done ++ [⟨sc.id, (env.moveTo sc.id).1,
            (env.moveTo sc.id).2⟩]) deads m' ds h
          refine ⟨by simp at h1 ⊢; omega, ?_, ?_⟩
          · rw [h2, ← hm1]
          · intro k hk
            rw [h3 k hk, ← hm1]
            show lookupPair k (setKey "food" _ m.knowledge) = lookupPair k m.knowledge
            exact lookupPair_setKey_ne "food" k _ m.knowledge hk
      · rw [if_neg hfoodcell] at h
        obtain ⟨h1, h2, h3⟩ := ih m (done ++ [⟨sc.id, (env.moveTo sc.id).1,
          (env.moveTo sc.id).2⟩]) deads m' ds h
        refine ⟨by simp at h1 ⊢; omega, h2, h3⟩

theorem compute_ge_min (m : Manager) (r : Q) (h : compute_max_scouters m = some r) :
    ∀ mn, getNested m.knowledge "Scouters" "Min" = some mn → Q.val mn ≤ Q.val r := by
  intro mn hmn
  rw [compute_max_scouters] at h
  simp only [Option.bind_eq_bind, Option.bind_eq_some] at h
  obtain ⟨bsf, hbsf, cf, hcf, kff, hkff, food, hfood, gf, hgf, mn2, hmn2, hr⟩ := h
  rw [hmn] at hmn2
  cases hmn2
  simp only [Option.pure_def, Option.some_inj] at hr
  rw [← hr, Q.val_pymax]
  exact le_max_left _ _

theorem removeFirstId_cons_self (t : Scouter) (rest : List Scouter) :
    removeFirstId t.id (t :: rest) = rest := by
  simp [removeFirstId]

theorem removeFirstId_append_of_not_mem (i : Nat) (l1 l2 : List Scouter)
    (h : i ∉ l1.map Scouter.id) :
    removeFirstId i (l1 ++ l2) = l1 ++ removeFirstId i l2 := by
  induction l1 with
  | nil => simp
  | cons p rest ih =>
    simp only [List.map_cons, List.mem_cons] at h
    push_neg at h
    have hne : p.id ≠ i := fun hh => h.1 hh.symm
    rw [List.cons_append, removeFirstId, if_neg hne, ih h.2]
    rfl

theorem resetScouterLoop_skip (x y : Nat) (todo cur : List Scouter)
    (h : ∀ t ∈ todo, ¬(t.x = x ∧ t.y = y)) :
    resetScouterLoop x y todo cur = cur := by
  induction todo with
  | nil => rfl
  | cons t rest ih =>
    rw [resetScouterLoop, if_neg (h t (by simp))]
    exact ih (fun q hq => h q (by simp [hq]))

theorem resetScouterLoop_filter (x y : Nat) (pre todo : List Scouter)
    (hnd : ((pre ++ todo).map Scouter.id).Nodup) :
    resetScouterLoop x y todo (pre ++ todo)
      = pre ++ todo.filter (fun sc => !(sc.x == x && sc.y == y)) := by
  induction todo generalizing pre with
  | nil => simp [resetScouterLoop]
  | cons t rest ih =>
    by_cases hm : t.x = x ∧ t.y = y
    · rw [resetScouterLoop, if_pos hm]
      have hnotpre : t.id ∉ pre.map Scouter.id := by
        intro hmem
        rw [List.map_append] at hnd
        have := (List.nodup_append.mp hnd).2.2
        exact this hmem (by simp)
      have hrm : removeFirstId t.id (pre ++ t :: rest) = pre ++ rest := by
        rw [removeFirstId_append_of_not_mem t.id pre (t :: rest) hnotpre,
          removeFirstId_cons_self]
      rw [hrm]
      have hnd2 : ((pre ++ rest).map Scouter.id).Nodup := by
        rw [List.map_append] at hnd ⊢
        rw [List.map_cons] at hnd
        have h1 := List.nodup_append.mp hnd
        exact List.nodup_append.mpr
          ⟨h1.1, h1.2.1.of_cons, fun a ha hb => h1.2.2 ha (List.mem_cons_of_mem _ hb)⟩
      rw [ih pre hnd2]
      have hfil : (t :: rest).filter (fun sc => !(sc.x == x && sc.y == y))
          = rest.filter (fun sc => !(sc.x == x && sc.y == y)) := by
        rw [List.filter_cons]
        simp [hm.1, hm.2]
      rw [hfil]
    · rw [resetScouterLoop, if_neg hm]
      have hnd2 : (((pre ++ [t]) ++ rest).map Scouter.id).Nodup := by
        simpa using hnd
      have hh := ih (pre ++ [t]) hnd2
      rw [List.append_assoc] at hh
      simp only [List.singleton_append] at hh
      rw [hh]
      have hmB : (!(t.x == x && t.y == y)) = true := by
        simp only [Bool.not_eq_true']
        rw [Bool.and_eq_false_iff]
        rcases Decidable.not_and_iff_or_not.mp hm with h | h
        · exact Or.inl (beq_eq_false_iff_ne.mpr h)
        · exact Or.inr (beq_eq_false_iff_ne.mpr h)
      rw [List.filter_cons, if_pos hmB]
      simp

theorem resetFoodLoop_skip (x y : Nat) (todo : List (Nat × Nat)) (m : Manager)
    (h : ∀ f ∈ todo, f ≠ (x, y)) :
    resetFoodLoop x y todo m = some m := by
  induction todo with
  | nil => rfl
  | cons f rest ih =>
    rw [resetFoodLoop, if_neg (h f (by simp))]
    exact ih (fun q hq => h q (by simp [hq]))

theorem resetFoodLoop_prefix_skip (x y : Nat) (todo rest : List (Nat × Nat)) (m : Manager)
    (h : ∀ f ∈ todo, f ≠ (x, y)) :
    resetFoodLoop x y (todo ++ rest) m = resetFoodLoop x y rest m := by
  induction todo with
  | nil => rfl
  | cons f tail ih =>
    rw [List.cons_append, resetFoodLoop, if_neg (h f (by simp))]
    exact ih (fun q hq => h q (by simp [hq]))

theorem resetFoodLoop_mem (x y : Nat) (m : Manager) (food : List (Nat × Nat)) (mx : Q)
    (hfood : getCoords m.knowledge "food" = some food)
    (hmx : getNum m.knowledge "max_scouters" = some mx)
    (hmem : (x, y) ∈ food) (hnd : food.Nodup) :
    resetFoodLoop x y food m = some { m with knowledge := setKey "max_scouters" (JValue.num (mx - 1)) (setKey "food" (JValue.coords (food.erase (x, y))) m.knowledge) } := by
  obtain ⟨pre, post, hsplit⟩ := List.append_of_mem hmem
  have hnotpre : ∀ f ∈ pre, f ≠ (x, y) := by
    intro f hf he
    subst he
    rw [hsplit] at hnd
    exact List.disjoint_of_nodup_append hnd hf (by simp)
  have hnotpost : (x, y) ∉ post := by
    rw [hsplit] at hnd
    have h2 := (List.nodup_append.mp hnd).2.1
    exact (List.nodup_cons.mp h2).1
  conv_lhs => rw [hsplit]
  rw [resetFoodLoop_prefix_skip x y pre ((x, y) :: post) m hnotpre]
  have hstep : resetFoodLoop x y ((x, y) :: post) m = resetFoodLoop x y post
      { m with knowledge := setKey "max_scouters" (JValue.num (mx - 1)) (setKey "food" (JValue.coords (food.erase (x, y))) m.knowledge) } := by
    rw [resetFoodLoop, if_pos rfl, hfood]
    simp [hmem, hmx]
  rw [hstep]
  exact resetFoodLoop_skip x y post _ (fun f hf he => hnotpost (he ▸ hf))

theorem countP_le_range (B N : Nat) :
    (List.range N).countP (fun v => decide (v ≤ B)) = min N (B + 1) := by
  induction N with
  | zero => simp
  | succ n ih =>
    rw [List.range_succ, List.countP_append, ih]
    have hone : List.countP (fun v => decide (v ≤ B)) [n] = if n ≤ B then 1 else 0 := by
      by_cases h : n ≤ B <;> simp [h]
    rw [hone]
    by_cases h : n ≤ B
    · rw [if_pos h]
      omega
    · rw [if_neg h]
      omega

theorem countP_congr_mem (p q : Nat → Bool) :
    ∀ l : List Nat, (∀ v ∈ l, p v = q v) → l.countP p = l.countP q := by
  intro l
  induction l with
  | nil => intro h; rfl
  | cons a t ih =>
    intro h
    rw [List.countP_cons, List.countP_cons, ih (fun v hv => h v (by simp [hv])),
      h a (by simp)]

theorem countP_split (p q : Nat → Bool) :
    ∀ l : List Nat,
      l.countP p
        = l.countP (fun v => p v && q v) + l.countP (fun v => p v && !q v) := by
  intro l
  induction l with
  | nil => rfl
  | cons a t ih =>
    rw [List.countP_cons, List.countP_cons, List.countP_cons, ih]
    cases hp : p a <;> cases hq : q a <;> simp [hp, hq] <;> omega

theorem pickLoop_mem_of_some :
    ∀ (l : List ((Nat × Nat) × Q)) (acc : Q) (v : Nat) (c : Nat × Nat),
      pickLoop v acc l = some c → c ∈ l.map Prod.fst := by
  intro l
  induction l with
  | nil => intro acc v c h; cases h
  | cons p t ih =>
    intro acc v c h
    obtain ⟨sq, qt⟩ := p
    rw [pickLoop] at h
    split at h
    · cases h
      simp
    · simp only [List.map_cons, List.mem_cons]
      exact Or.inr (ih _ v c h)

theorem list_length_le_sum :
    ∀ l : List Nat, (∀ w ∈ l, 1 ≤ w) → l.length ≤ l.sum := by
  intro l
  induction l with
  | nil => intro h; simp
  | cons a t ih =>
    intro h
    have h1 := h a (by simp)
    have h2 := ih (fun w hw => h w (by simp [hw]))
    simp only [List.length_cons, List.sum_cons]
    omega

theorem list_sum_cast :
    ∀ l : List Nat, ((l.map (fun w => ((w : Nat) : ℚ))).sum) = ((l.sum : ℕ) : ℚ) := by
  intro l
  induction l with
  | nil => simp
  | cons a t ih =>
    simp only [List.map_cons, List.sum_cons, ih]
    push_cast
    ring

theorem foldl_val_sum :
    ∀ (l : List ((Nat × Nat) × Q)) (acc : Q),
      Q.val (l.foldl (fun a p => a + p.2) acc)
        = Q.val acc + ((l.map (fun p => Q.val p.2)).sum) := by
  intro l
  induction l with
  | nil => intro acc; simp
  | cons p t ih =>
    intro acc
    rw [List.foldl_cons, ih, Q.val_add]
    simp only [List.map_cons, List.sum_cons]
    ring

theorem Q.trunc_of_val (q : Q) (k : ℕ) (h : Q.val q = (k : ℚ)) :
    Q.trunc q = (k : ℤ) := by
  have hnum : q.num = (k : ℤ) * ((q.den : ℕ) : ℤ) := by
    have h2 : (q.num : ℚ) = (k : ℚ) * (((q.den : ℕ)) : ℚ) := by
      rw [Q.val, div_eq_iff (Q.den_cast_ne q)] at h
      exact h
    exact_mod_cast h2
  have hpos : (0 : ℤ) < ((q.den : ℕ) : ℤ) := by exact_mod_cast q.den.pos
  have hnn : 0 ≤ q.num := by
    rw [hnum]
    positivity
  rw [Q.trunc, if_pos hnn, hnum, Int.mul_ediv_cancel _ (ne_of_gt hpos)]

theorem gridCells_nodup (b : Board) : (gridCells b).Nodup := by
  have h : gridCells b = (List.range b.width).product (List.range b.height) := rfl
  rw [h]
  exact List.Nodup.product (List.nodup_range b.width) (List.nodup_range b.height)

theorem touchedCells_nodup (b : Board) : (touchedCells b).Nodup :=
  (gridCells_nodup b).filter _

theorem availables_fst (b : Board) : (availables b).map Prod.fst = touchedCells b := by
  show ((touchedCells b).map (fun c => (c, b.get_blob c.1 c.2 + 1))).map Prod.fst
    = touchedCells b
  rw [List.map_map]
  have hcomp : (Prod.fst ∘ fun c : Nat × Nat => (c, b.get_blob c.1 c.2 + 1))
      = fun c => c := rfl
  rw [hcomp, List.map_id']

theorem availables_vals (b : Board) (wf : Nat × Nat → Nat)
    (h : ∀ c ∈ touchedCells b, Q.val (b.get_blob c.1 c.2) = (wf c : ℚ)) :
    (availables b).map (fun p => Q.val p.2)
      = ((touchedCells b).map (fun c => wf c + 1)).map (fun w => ((w : Nat) : ℚ)) := by
  show ((touchedCells b).map (fun c => (c, b.get_blob c.1 c.2 + 1))).map
      (fun p => Q.val p.2) = _
  rw [List.map_map, List.map_map]
  apply List.map_congr_left
  intro c hc
  simp only [Function.comp]
  rw [Q.val_add, h c hc, Q.val_one]
  push_cast
  ring

theorem pickLoop_count (N : Nat) :
    ∀ (l : List ((Nat × Nat) × Q)) (ws : List Nat) (acc : Q) (a : Nat),
      l.map (fun p => Q.val p.2) = ws.map (fun w => ((w : Nat) : ℚ)) →
      (∀ w ∈ ws, 1 ≤ w) →
      (l.map Prod.fst).Nodup →
      Q.val acc = (a : ℚ) →
      ∀ (i : Nat) (hi : i < l.length),
        (List.range N).countP
            (fun v => decide (pickLoop v acc l = some (l.get ⟨i, hi⟩).1)) =
          min N (a + ((ws.take (i + 1)).sum) + 1) - min N (a + ((ws.take i).sum) + 1)
            + (if i = 0 then min N (a + 1) else 0) := by
  intro l
  induction l with
  | nil =>
    intro ws acc a hws hw1 hnd hacc i hi
    exact absurd hi (by simp)
  | cons p t ih =>
    intro ws acc a hws hw1 hnd hacc i hi
    obtain ⟨c0, q0⟩ := p
    cases ws with
    | nil => exact absurd hws (by simp)
    | cons w0 ws2 =>
      simp only [List.map_cons, List.cons.injEq] at hws
      obtain ⟨hq0, hws2⟩ := hws
      have hw0 : 1 ≤ w0 := hw1 w0 (by simp)
      have hw12 : ∀ w ∈ ws2, 1 ≤ w := fun w hw => hw1 w (by simp [hw])
      have hnd2 : (t.map Prod.fst).Nodup := by
        simp only [List.map_cons, List.nodup_cons] at hnd
        exact hnd.2
      have hc0nm : c0 ∉ t.map Prod.fst := by
        simp only [List.map_cons, List.nodup_cons] at hnd
        exact hnd.1
      have haccq : Q.val (acc + q0) = ((a + w0 : Nat) : ℚ) := by
        rw [Q.val_add, hacc, hq0]
        push_cast
        ring
      have hcond : ∀ v : Nat, (((v : Nat) : Q) ≤ acc + q0) ↔ v ≤ a + w0 := by
        intro v
        rw [Q.le_iff_val, Q.val_natCast, haccq]
        constructor
        · intro hh
          exact_mod_cast hh
        · intro hh
          exact_mod_cast hh
      have hite : ∀ v : Nat,
          pickLoop v acc ((c0, q0) :: t)
            = if v ≤ a + w0 then some c0 else pickLoop v (acc + q0) t := by
        intro v
        rw [pickLoop]
        by_cases h : v ≤ a + w0
        · rw [if_pos ((hcond v).mpr h), if_pos h]
        · rw [if_neg (fun hh => h ((hcond v).mp hh)), if_neg h]
      cases i with
      | zero =>
        have hpt : ∀ v ∈ List.range N,
            decide (pickLoop v acc ((c0, q0) :: t)
              = some (((c0, q0) :: t).get ⟨0, hi⟩).1)
              = decide (v ≤ a + w0) := by
          intro v hv
          rw [hite v]
          by_cases h : v ≤ a + w0
          · simp [h]
          · have hne : pickLoop v (acc + q0) t ≠ some c0 := by
              intro hcon
              exact hc0nm (pickLoop_mem_of_some t (acc + q0) v c0 hcon)
            simp [List.get_cons_zero, h, hne]
        rw [countP_congr_mem _ _ (List.range N) hpt, countP_le_range]
        simp only [Nat.zero_add, List.take_succ_cons, List.take_zero, List.sum_cons,
          List.sum_nil]
        rw [if_pos trivial]
        omega
      | succ j =>
        have hj : j < t.length := by
          simpa using hi
        cases t with
        | nil => exact absurd hj (by simp)
        | cons t0 t2 =>
          obtain ⟨ct0, qt0⟩ := t0
          cases ws2 with
          | nil => exact absurd hws2 (by simp)
          | cons w1 ws3 =>
            simp only [List.map_cons, List.cons.injEq] at hws2
            obtain ⟨hq1, hws3⟩ := hws2
            have hw1' : 1 ≤ w1 := hw12 w1 (by simp)
            have htgtmem : (((ct0, qt0) :: t2).get ⟨j, hj⟩).1
                ∈ ((ct0, qt0) :: t2).map Prod.fst :=
              List.mem_map_of_mem Prod.fst (List.get_mem _ _ _)
            have hcne : c0 ≠ (((ct0, qt0) :: t2).get ⟨j, hj⟩).1 := by
              intro he
              exact hc0nm (he ▸ htgtmem)
            have hget1 : (((c0, q0) :: (ct0, qt0) :: t2).get ⟨j + 1, hi⟩).1
                = ((((ct0, qt0) :: t2)).get ⟨j, hj⟩).1 := rfl
            have hpt : ∀ v ∈ List.range N,
                decide (pickLoop v acc ((c0, q0) :: (ct0, qt0) :: t2)
                  = some (((c0, q0) :: (ct0, qt0) :: t2).get ⟨j + 1, hi⟩).1)
                  = (decide (pickLoop v (acc + q0) ((ct0, qt0) :: t2)
                      = some ((((ct0, qt0) :: t2)).get ⟨j, hj⟩).1)
                      && !decide (v ≤ a + w0)) := by
              intro v hv
              rw [hite v, hget1]
              by_cases h : v ≤ a + w0
              · simp only [if_pos h]
                simp [h]
                exact hcne
              · simp only [if_neg h]
                simp [h]
            rw [countP_congr_mem _ _ (List.range N) hpt]
            have hsplit : (List.range N).countP
                (fun v => decide (pickLoop v (acc + q0) ((ct0, qt0) :: t2)
                  = some ((((ct0, qt0) :: t2)).get ⟨j, hj⟩).1))
                = (List.range N).countP
                    (fun v => decide (pickLoop v (acc + q0) ((ct0, qt0) :: t2)
                      = some ((((ct0, qt0) :: t2)).get ⟨j, hj⟩).1)
                      && decide (v ≤ a + w0))
                  + (List.range N).countP
                    (fun v => decide (pickLoop v (acc + q0) ((ct0, qt0) :: t2)
                      = some ((((ct0, qt0) :: t2)).get ⟨j, hj⟩).1)
                      && !decide (v ≤ a + w0)) :=
              countP_split _ _ (List.range N)
            have hIH := ih (w1 :: ws3) (acc + q0) (a + w0)
              (by simp only [List.map_cons, List.cons.injEq]; exact ⟨hq1, hws3⟩)
              (fun w hw => hw12 w hw) hnd2 haccq j hj
            have hheadsel : ∀ v : Nat, v ≤ a + w0 →
                pickLoop v (acc + q0) ((ct0, qt0) :: t2) = some ct0 := by
              intro v hv
              have hle : ((v : Nat) : Q) ≤ (acc + q0) + qt0 := by
                rw [Q.le_iff_val, Q.val_natCast, Q.val_add, haccq, hq1]
                push_cast
                have : v ≤ a + w0 + w1 := by omega
                exact_mod_cast this
              rw [pickLoop, if_pos hle]
            have hlow : (List.range N).countP
                (fun v => decide (pickLoop v (acc + q0) ((ct0, qt0) :: t2)
                  = some ((((ct0, qt0) :: t2)).get ⟨j, hj⟩).1)
                  && decide (v ≤ a + w0))
                = if j = 0 then min N (a + w0 + 1) else 0 := by
              by_cases hj0 : j = 0
              · subst hj0
                rw [if_pos rfl]
                have hpt2 : ∀ v ∈ List.range N,
                    (decide (pickLoop v (acc + q0) ((ct0, qt0) :: t2)
                      = some ((((ct0, qt0) :: t2)).get ⟨0, hj⟩).1)
                      && decide (v ≤ a + w0))
                      = decide (v ≤ a + w0) := by
                  intro v hv
                  by_cases h : v ≤ a + w0
                  · simp [hheadsel v h, h, List.get_cons_zero]
                  · simp [h]
                rw [countP_congr_mem _ _ (List.range N) hpt2, countP_le_range]
              · obtain ⟨j2, rfl⟩ : ∃ j2, j = j2 + 1 := ⟨j - 1, by omega⟩
                rw [if_neg hj0]
                have hj2 : j2 < t2.length := by simpa using hj
                have hmem2 : ((t2.get ⟨j2, hj2⟩).1) ∈ t2.map Prod.fst :=
                  List.mem_map_of_mem Prod.fst (List.get_mem _ _ _)
                have hne2 : ct0 ≠ (t2.get ⟨j2, hj2⟩).1 := by
                  intro he
                  simp only [List.map_cons, List.nodup_cons] at hnd2
                  exact hnd2.1 (he ▸ hmem2)
                have hget : (((ct0, qt0) :: t2).get ⟨j2 + 1, hj⟩).1
                    = (t2.get ⟨j2, hj2⟩).1 := rfl
                have hpt2 : ∀ v ∈ List.range N,
                    (decide (pickLoop v (acc + q0) ((ct0, qt0) :: t2)
                      = some ((((ct0, qt0) :: t2)).get ⟨j2 + 1, hj⟩).1)
                      && decide (v ≤ a + w0))
                      = false := by
                  intro v hv
                  by_cases h : v ≤ a + w0
                  · simp [hheadsel v h, h]
                    exact hne2
                  · simp [h]
                rw [countP_congr_mem _ _ (List.range N) hpt2, List.countP_false]
                rfl
            simp only [List.take_succ_cons, List.sum_cons] at hIH ⊢
            rw [if_neg (Nat.succ_ne_zero j)]
            by_cases hj0 : j = 0
            · subst hj0
              rw [if_pos rfl] at hlow hIH
              simp only [List.take_zero, List.sum_nil] at hIH ⊢
              omega
            · rw [if_neg hj0] at hlow hIH
              omega

end BlobSim

/-
Claim theorems.
-/

namespace BlobSim

/-- C1, counterexample: a constructed manager (two scouters, covering-driven
target) whose first tick raises: both scouters are classified dead, the
recomputed target shrinks by one, the uniform shrink pass culls a scouter that
is already queued as dead, and the dead-replacement pass then fails its
list.remove.  The tick does not complete, so the claim that every tick of
every constructed manager completes with count equal to the target is
false. -/
theorem move_tick_can_fail :
    (init bCov2 (some docCov) envCov2).map (fun m => (move envCov1 m).isSome)
      = some false := by decide

/-- C1, amended: every tick that completes leaves the active scouter count
equal to the recomputed population target, which never falls below the
configured Scouters.Min; and the dead-replacement pass, when it completes on a
manager whose count equals its cached target, leaves the net population
unaffected.  (A tick can fail to complete: see the counterexample, where the
shrink pass culls a dead-marked scouter.) -/
theorem move_population :
    (∀ env m m', move env m = some m' →
       ∃ mx, getNum m'.knowledge "max_scouters" = some mx ∧
         (m'.scouters.length : ℚ) = Q.val mx ∧
         (∀ mn, getNested m.knowledge "Scouters" "Min" = some mn →
            Q.val mn ≤ Q.val mx)) ∧
    (∀ env ds m m' mx, getNum m.knowledge "max_scouters" = some mx →
       (m.scouters.length : ℚ) = Q.val mx → deadPass env ds m = some m' →
       m'.scouters.length = m.scouters.length) := by
  constructor
  · intro env m0 m' hmove
    rw [move] at hmove
    simp only [Option.bind_eq_bind, Option.bind_eq_some, Option.pure_def,
      Option.some_inj] at hmove
    obtain ⟨s1, hstep, new_max, hcomp, old_max, hold, hrest⟩ := hmove
    obtain ⟨hlen1, hb1, hpres⟩ := moveStep1_spec env _ _ [] [] s1.1 s1.2 hstep
    have hm2s : (Manager.mk s1.1.board
        (setKey "max_scouters" (JValue.num new_max) s1.1.knowledge)
        s1.1.scouters s1.1.nextId s1.1.rng).scouters = s1.1.scouters := rfl
    have hmx2 : getNum (setKey "max_scouters" (JValue.num new_max) s1.1.knowledge)
        "max_scouters" = some new_max := by
      unfold getNum
      rw [lookupPair_setKey_self]
    have hmin : ∀ mn, getNested m0.knowledge "Scouters" "Min" = some mn →
        Q.val mn ≤ Q.val new_max := by
      intro mn hmn
      have hpres2 := hpres "Scouters" (by decide)
      have hmn1 : getNested s1.1.knowledge "Scouters" "Min" = some mn := by
        unfold getNested at hmn ⊢
        rw [hpres2]
        exact hmn
      exact compute_ge_min s1.1 new_max hcomp mn hmn1
    have hvd : Q.val (new_max - ((s1.1.scouters.length : Nat) : Q))
        = Q.val new_max - (s1.1.scouters.length : ℚ) := by
      rw [Q.val_sub, Q.val_natCast]
    split at hrest
    · -- grow side of the population adjustment
      split at hrest
      · rename_i hpos hint
        simp only [Option.bind_eq_bind, Option.bind_eq_some, Option.some_inj] at hrest
        obtain ⟨m3, hg, m4, hdp, gd, hgd, rbf, hrbf, hfin⟩ := hrest
        have h0val : 0 < Q.val (new_max - ((s1.1.scouters.length : Nat) : Q)) := by
          have h := (Q.lt_iff_val _ _).mp hpos
          rw [Q.val_zero] at h
          exact h
        have htr : ((Q.trunc (new_max - ((s1.1.scouters.length : Nat) : Q)) : ℤ) : ℚ)
            = Q.val (new_max - ((s1.1.scouters.length : Nat) : Q)) :=
          Q.isInt_trunc_val _ hint
        have htrpos : 0 ≤ Q.trunc (new_max - ((s1.1.scouters.length : Nat) : Q)) := by
          by_contra hcon
          push_neg at hcon
          have hq : ((Q.trunc (new_max - ((s1.1.scouters.length : Nat) : Q)) : ℤ) : ℚ) < 0 := by
            exact_mod_cast hcon
          rw [htr] at hq
          linarith
        have hcast : (((Q.trunc (new_max - ((s1.1.scouters.length : Nat) : Q))).toNat : ℕ) : ℚ)
            = Q.val new_max - (s1.1.scouters.length : ℚ) := by
          rw [← hvd, ← htr]
          exact_mod_cast congrArg (fun z : ℤ => (z : ℚ)) (Int.toNat_of_nonneg htrpos)
        have hbound : (s1.1.scouters.length : ℚ)
            + (((Q.trunc (new_max - ((s1.1.scouters.length : Nat) : Q))).toNat : ℕ) : ℚ)
            ≤ Q.val new_max := by
          rw [hcast]
          linarith
        obtain ⟨hk3, hb3, hl3⟩ := growN_spec env _ _ m3 new_max hmx2 (by
          push_cast
          linarith) hg
        have hmx3 : getNum m3.knowledge "max_scouters" = some new_max := by
          rw [hk3]
          exact hmx2
        have hl3n : m3.scouters.length = s1.1.scouters.length
            + (Q.trunc (new_max - ((s1.1.scouters.length : Nat) : Q))).toNat := hl3
        have hlen3 : (m3.scouters.length : ℚ) = Q.val new_max := by
          rw [hl3n]
          push_cast
          push_cast at hcast
          linarith
        obtain ⟨hk4, hb4, hl4⟩ := deadPass_spec env s1.2 m3 m4 new_max hmx3 hlen3 hdp
        refine ⟨new_max, ?_, ?_, hmin⟩
        · rw [← hfin]
          show getNum m4.knowledge "max_scouters" = some new_max
          rw [hk4]
          exact hmx3
        · rw [← hfin]
          show ((m4.scouters.length : Nat) : ℚ) = Q.val new_max
          rw [hl4]
          exact hlen3
      · simp at hrest
    · -- shrink side of the population adjustment
      split at hrest
      · split at hrest
        · rename_i hnpos hneg hint
          clear hnpos
          simp only [Option.bind_eq_bind, Option.bind_eq_some, Option.some_inj] at hrest
          obtain ⟨m3, hs, m4, hdp, gd, hgd, rbf, hrbf, hfin⟩ := hrest
          have hnegval : Q.val (new_max - ((s1.1.scouters.length : Nat) : Q)) < 0 := by
            have h := (Q.lt_iff_val _ _).mp hneg
            rw [Q.val_zero] at h
            exact h
          have hintn := Q.isInt_neg _ hint
          have htr : ((Q.trunc (-(new_max - ((s1.1.scouters.length : Nat) : Q))) : ℤ) : ℚ)
              = Q.val (-(new_max - ((s1.1.scouters.length : Nat) : Q))) :=
            Q.isInt_trunc_val _ hintn
          have hvneg : Q.val (-(new_max - ((s1.1.scouters.length : Nat) : Q)))
              = (s1.1.scouters.length : ℚ) - Q.val new_max := by
            rw [Q.val_neg, hvd]
            ring
          have htrpos : 0 ≤ Q.trunc (-(new_max - ((s1.1.scouters.length : Nat) : Q))) := by
            by_contra hcon
            push_neg at hcon
            have hq : ((Q.trunc (-(new_max - ((s1.1.scouters.length : Nat) : Q))) : ℤ) : ℚ) < 0 := by
              exact_mod_cast hcon
            rw [htr, hvneg] at hq
            linarith
          have hcast : (((Q.trunc (-(new_max - ((s1.1.scouters.length : Nat) : Q)))).toNat : ℕ) : ℚ)
              = (s1.1.scouters.length : ℚ) - Q.val new_max := by
            rw [← hvneg, ← htr]
            exact_mod_cast congrArg (fun z : ℤ => (z : ℚ)) (Int.toNat_of_nonneg htrpos)
          obtain ⟨hk3, hb3, hl3⟩ := shrinkN_spec env _ _ m3 hs
          have hmx3 : getNum m3.knowledge "max_scouters" = some new_max := by
            rw [hk3]
            exact hmx2
          have hl3n : m3.scouters.length
              + (Q.trunc (-(new_max - ((s1.1.scouters.length : Nat) : Q)))).toNat
              = s1.1.scouters.length := hl3
          have hlen3 : (m3.scouters.length : ℚ) = Q.val new_max := by
            have hl3q : (m3.scouters.length : ℚ)
                + (((Q.trunc (-(new_max - ((s1.1.scouters.length : Nat) : Q)))).toNat : ℕ) : ℚ)
                = (s1.1.scouters.length : ℚ) := by
              exact_mod_cast congrArg (fun n : Nat => (n : ℚ)) hl3n
            rw [hcast] at hl3q
            linarith
          obtain ⟨hk4, hb4, hl4⟩ := deadPass_spec env s1.2 m3 m4 new_max hmx3 hlen3 hdp
          refine ⟨new_max, ?_, ?_, hmin⟩
          · rw [← hfin]
            show getNum m4.knowledge "max_scouters" = some new_max
            rw [hk4]
            exact hmx3
          · rw [← hfin]
            show ((m4.scouters.length : Nat) : ℚ) = Q.val new_max
            rw [hl4]
            exact hlen3
        · simp at hrest
      · -- population already at target
        rename_i hnpos hnneg
        simp only [Option.bind_eq_bind, Option.some_bind, Option.bind_eq_some,
          Option.some_inj] at hrest
        obtain ⟨m4, hdp, gd, hgd, rbf, hrbf, hfin⟩ := hrest
        have h1 : ¬(0 < Q.val (new_max - ((s1.1.scouters.length : Nat) : Q))) := by
          intro hcon
          apply hnpos
          rw [Q.lt_iff_val, Q.val_zero]
          exact hcon
        have h2 : ¬(Q.val (new_max - ((s1.1.scouters.length : Nat) : Q)) < 0) := by
          intro hcon
          apply hnneg
          rw [Q.lt_iff_val, Q.val_zero]
          exact hcon
        clear hnpos hnneg
        have h3 : Q.val (new_max - ((s1.1.scouters.length : Nat) : Q)) = 0 := by linarith
        rw [hvd] at h3
        have hlen2 : (((Manager.mk s1.1.board
            (setKey "max_scouters" (JValue.num new_max) s1.1.knowledge)
            s1.1.scouters s1.1.nextId s1.1.rng).scouters.length
            : Nat) : ℚ) = Q.val new_max := by
          rw [hm2s]
          linarith
        obtain ⟨hk4, hb4, hl4⟩ := deadPass_spec env s1.2 _ m4 new_max hmx2 hlen2 hdp
        refine ⟨new_max, ?_, ?_, hmin⟩
        · rw [← hfin]
          show getNum m4.knowledge "max_scouters" = some new_max
          rw [hk4]
          exact hmx2
        · rw [← hfin]
          show ((m4.scouters.length : Nat) : ℚ) = Q.val new_max
          rw [hl4, hm2s]
          linarith
  · intro env ds m m' mx h1 h2 h3
    exact (deadPass_spec env ds m m' mx h1 h2 h3).2.2

/-- C1, witness for the amended theorem: a constructed manager with one
scouter whose tick completes (the scouter dies and is replaced) has final
count equal to the target. -/
theorem move_population_witness :
    ∃ m0 m' mx, init boardZero (some docMin1) envZero = some m0 ∧
      move envZero m0 = some m' ∧
      getNum m'.knowledge "max_scouters" = some mx ∧
      (m'.scouters.length : ℚ) = Q.val mx := by
  have h01 : ((init boardZero (some docMin1) envZero).bind (move envZero)).isSome
      = true := by decide
  obtain ⟨m', hm'⟩ := Option.isSome_iff_exists.mp h01
  obtain ⟨m0, hm0, hmv⟩ := Option.bind_eq_some.mp hm'
  obtain ⟨mx, ha, hb, _⟩ := move_population.1 envZero m0 m' hmv
  exact ⟨m0, m', mx, hm0, hmv, ha, hb⟩

/-- C2, counterexample: on a manager whose known-food list already holds
(0, 0), food_discovered (0, 0) leaves two occurrences in the list: it is not
idempotent and does not implement set semantics. -/
theorem food_discovered_not_idempotent :
    getCoords mFood1.knowledge "food" = some [(0, 0)] ∧
    (food_discovered mFood1 0 0).bind (fun m => getCoords m.knowledge "food")
      = some [(0, 0), (0, 0)] := by decide

/-- C2, amended: food_discovered has append semantics: it unconditionally
appends the coordinate to the known-food list, so a second call with the same
coordinate leaves a second occurrence; nothing else of the manager changes. -/
theorem food_discovered_appends (m : Manager) (x y : Nat) (food : List (Nat × Nat))
    (h : getCoords m.knowledge "food" = some food) :
    ∃ m', food_discovered m x y = some m' ∧
      getCoords m'.knowledge "food" = some (food ++ [(x, y)]) ∧
      (food_discovered m' x y).bind (fun m2 => getCoords m2.knowledge "food")
        = some (food ++ [(x, y)] ++ [(x, y)]) ∧
      m'.scouters = m.scouters ∧ m'.board = m.board ∧
      (∀ k, k ≠ "food" → lookupPair k m'.knowledge = lookupPair k m.knowledge) := by
  refine ⟨{ m with knowledge := setKey "food" (JValue.coords (food ++ [(x, y)])) m.knowledge },
    ?_, ?_, ?_, rfl, rfl, ?_⟩
  · simp [food_discovered, h]
  · simp [getCoords_setKey_food]
  · simp [food_discovered, getCoords_setKey_food]
  · intro k hk
    exact lookupPair_setKey_ne _ _ _ _ hk

/-- C2, witness for the amended theorem at the concrete manager mFood1. -/
theorem food_discovered_appends_witness :
    ∃ m', food_discovered mFood1 0 0 = some m' ∧
      getCoords m'.knowledge "food" = some [(0, 0), (0, 0)] := by
  obtain ⟨m', h1, h2, _⟩ := food_discovered_appends mFood1 0 0 [(0, 0)] (by decide)
  exact ⟨m', h1, h2⟩

/-- C4, counterexample: on the mNeg manager (negative blob-size factor,
scouter minimum -1, total blob mass 5, a 100 by 100 board) the spec formula F
evaluates to -1/2, so the claimed result max(Min, floor F) is -1, but
compute_max_scouters returns 0, because Python int() truncates -1/2 toward
zero instead of flooring it. -/
theorem compute_max_scouters_not_floor :
    (compute_max_scouters mNeg).map Q.val = some 0 ∧
    max (Q.val (⟨-1, 1⟩ : Q)) ((⌊specF bArea ⟨-1, 1⟩ 0 0 1 0⌋ : ℤ) : ℚ) = -1 ∧
    (0 : ℚ) ≠ -1 := by
  have hm1 : Q.val (⟨-1, 1⟩ : Q) = -1 := by
    rw [Q.val_mk]
    norm_num
  refine ⟨?_, ?_, by norm_num⟩
  · have h : compute_max_scouters mNeg = some ⟨0, 1⟩ := by decide
    rw [h]
    simp [Option.map]
    rw [Q.val_mk]
    norm_num
  · have h : specF bArea ⟨-1, 1⟩ 0 0 1 0 = -1/2 := by
      have hbt : Q.val bArea.get_blob_total = 5 := Q.val_ofNat 5
      have hbc : Q.val bArea.get_cover = 0 := Q.val_zero
      rw [specF, hm1, hbt, hbc, Q.val_zero, Q.val_one]
      have hh : (bArea.height : ℚ) = 100 := by norm_num [bArea]
      have hw : (bArea.width : ℚ) = 100 := by norm_num [bArea]
      rw [hh, hw]
      norm_num
    rw [h, hm1]
    norm_num

/-- C4, amended: compute_max_scouters returns max(Scouters.Min, int(F)) where
F is the formula of section 4.4 and int() is Python truncation toward zero;
whenever F is non-negative this coincides with the claimed
max(Scouters.Min, floor(F)). -/
theorem compute_max_scouters_eq (m : Manager) (bsf cf kff gf mn : Q)
    (food : List (Nat × Nat))
    (h1 : getNested m.knowledge "Computing" "Blob Size Factor" = some bsf)
    (h2 : getNested m.knowledge "Computing" "Covering Factor" = some cf)
    (h3 : getNested m.knowledge "Computing" "Known Foods Factor" = some kff)
    (h4 : getCoords m.knowledge "food" = some food)
    (h5 : getNested m.knowledge "Computing" "Global Factor" = some gf)
    (h6 : getNested m.knowledge "Scouters" "Min" = some mn) :
    ∃ r, compute_max_scouters m = some r ∧
      Q.val r = max (Q.val mn) ((ratTrunc (specF m.board bsf cf kff gf food.length) : ℤ) : ℚ) ∧
      (0 ≤ specF m.board bsf cf kff gf food.length →
        Q.val r = max (Q.val mn) ((⌊specF m.board bsf cf kff gf food.length⌋ : ℤ) : ℚ)) := by
  have hv : Q.val ((bsf * m.board.get_blob_total + cf * m.board.get_cover
        + kff * (food.length : Q))
      * (gf * Q.div100000 ((m.board.height * m.board.width : Nat) : Q)))
      = specF m.board bsf cf kff gf food.length := by
    rw [Q.val_mul, Q.val_add, Q.val_add, Q.val_mul, Q.val_mul, Q.val_mul, Q.val_mul,
      Q.val_natCast, Q.val_div100000, Q.val_natCast, specF]
    push_cast
    ring
  refine ⟨Q.pymax mn ((Q.trunc ((bsf * m.board.get_blob_total + cf * m.board.get_cover
      + kff * (food.length : Q))
      * (gf * Q.div100000 ((m.board.height * m.board.width : Nat) : Q))) : ℤ) : Q),
    by simp [compute_max_scouters, h1, h2, h3, h4, h5, h6], ?_, ?_⟩
  · rw [Q.val_pymax, Q.val_intCast, Q.trunc_eq_ratTrunc, hv]
  · intro hF
    rw [Q.val_pymax, Q.val_intCast, Q.trunc_eq_ratTrunc, hv, ratTrunc_of_nonneg _ hF]

/-- C4, witness: the concrete scenario of the spec (minimum 2, all factors 0
except a global factor of 1, blank 10 by 10 board, no food): the result
denotes 2. -/
theorem compute_max_scouters_eq_witness :
    ∃ r, compute_max_scouters mSpec4 = some r ∧ Q.val r = 2 := by
  obtain ⟨r, hr, hval, _⟩ := compute_max_scouters_eq mSpec4 0 0 0 1 2 []
    (by decide) (by decide) (by decide) (by decide) (by decide) (by decide)
  refine ⟨r, hr, ?_⟩
  rw [hval]
  have h : specF mSpec4.board 0 0 0 1 (List.length ([] : List (Nat × Nat))) = 0 := by
    rw [specF, Q.val_zero, Q.val_one]
    norm_num
  rw [h]
  have h2 : ratTrunc 0 = 0 := by
    rw [ratTrunc_of_nonneg 0 le_rfl]
    norm_num
  rw [h2]
  have h3 : Q.val 2 = 2 := Q.val_ofNat 2
  rw [h3]
  norm_num

/-- C3, counterexample: the knowledge document docNoGD lacks the required
field Global Decrease, yet construction succeeds: the failure claimed to
occur at construction does not. -/
theorem init_succeeds_without_decay_key :
    getNum docNoGD "Global Decrease" = none ∧
    (init boardZero (some docNoGD) envZero).isSome = true := by decide

/-- C3, amended: construction fails for an unreadable or malformed knowledge
source and for a source missing (or mistyping) any of the five sizing fields
read by compute_max_scouters — Computing.Blob Size Factor, Computing.Covering
Factor, Computing.Known Foods Factor, Computing.Global Factor, Scouters.Min.
A source missing Global Decrease or Remaining Blob on Food constructs
successfully; that error surfaces only at the decay step of the first move()
tick. -/
theorem init_config_error_scope :
    (∀ b env, init b none env = none) ∧
    (∀ b env doc,
      (getNested doc "Computing" "Blob Size Factor" = none
        ∨ getNested doc "Computing" "Covering Factor" = none
        ∨ getNested doc "Computing" "Known Foods Factor" = none
        ∨ getNested doc "Computing" "Global Factor" = none
        ∨ getNested doc "Scouters" "Min" = none) →
      init b (some doc) env = none) ∧
    ((init boardZero (some docNoGD) envZero).bind (move envZero) = none) := by
  refine ⟨fun b env => rfl, ?_, by rfl⟩
  intro b env doc h
  have hmiss : compute_max_scouters ⟨b, setKey "food" (JValue.coords (scanFood b)) doc, [], 0, 0⟩
      = none := by
    apply compute_none_of_missing
    have e1 := getNested_setKey_ne "food" "Computing" "Blob Size Factor"
      (JValue.coords (scanFood b)) doc (by decide)
    have e2 := getNested_setKey_ne "food" "Computing" "Covering Factor"
      (JValue.coords (scanFood b)) doc (by decide)
    have e3 := getNested_setKey_ne "food" "Computing" "Known Foods Factor"
      (JValue.coords (scanFood b)) doc (by decide)
    have e4 := getNested_setKey_ne "food" "Computing" "Global Factor"
      (JValue.coords (scanFood b)) doc (by decide)
    have e5 := getNested_setKey_ne "food" "Scouters" "Min"
      (JValue.coords (scanFood b)) doc (by decide)
    simp only [Manager.knowledge]
    rcases h with h | h | h | h | h
    · exact Or.inl (by rw [e1, h])
    · exact Or.inr (Or.inl (by rw [e2, h]))
    · exact Or.inr (Or.inr (Or.inl (by rw [e3, h])))
    · exact Or.inr (Or.inr (Or.inr (Or.inl (by rw [e4, h]))))
    · exact Or.inr (Or.inr (Or.inr (Or.inr (by rw [e5, h]))))
  simp [init, hmiss]

/-- C3, witness for the amended theorem: an unreadable source and a document
missing the whole Computing record both fail at construction. -/
theorem init_config_error_scope_witness :
    init boardZero none envZero = none ∧
    init boardZero (some [("Scouters", JValue.obj [("Min", 1)])]) envZero = none := by
  constructor
  · exact init_config_error_scope.1 boardZero envZero
  · exact init_config_error_scope.2.1 boardZero envZero
      [("Scouters", JValue.obj [("Min", 1)])] (Or.inl (by decide))

/-- C5, counterexample: on a 1 by 2 board whose two cells are touched with
blob mass zero, each cell has weight 1 and the truncated total is 2, so the
claim demands that each cell be selected by exactly one of the two equiprobable
draw values; in fact the comparison acc >= index_pond makes both draws 0 and 1
select the first cell, and the second cell is never selected. -/
theorem find_blob_square_weight_miscount :
    Q.trunc (total_blob bTouch2) = 2 ∧
    bTouch2.is_touched 0 1 = true ∧
    bTouch2.get_blob 0 1 + 1 = (1 : Q) ∧
    selectionCount bTouch2 (0, 0) = 2 ∧
    selectionCount bTouch2 (0, 1) = 0 := by decide

/-- C5, amended: the exact selection counts of find_blob_square.  On a board
whose touched cells carry natural blob masses (wf c being the mass of cell c,
so its weight is wf c + 1), of the int(total) equiprobable draw values the
cell at scan position i is selected by exactly weight + 1 draws when it is
first of several, weight - 1 draws when it is last of several, and weight
draws otherwise (a single touched cell absorbs all total = weight draws); the
claimed marginal count of exactly weight per cell therefore holds only at
interior positions and for a single touched cell, not at the two boundary
positions. -/
theorem find_blob_square_selection_counts :
    ∀ (b : Board) (wf : Nat × Nat → Nat),
      (∀ c ∈ touchedCells b, Q.val (b.get_blob c.1 c.2) = (wf c : ℚ)) →
      ∀ (i : Nat) (hi : i < (touchedCells b).length),
        selectionCount b ((touchedCells b).get ⟨i, hi⟩) =
          (if (touchedCells b).length = 1 then wf ((touchedCells b).get ⟨i, hi⟩) + 1
           else if i = 0 then wf ((touchedCells b).get ⟨i, hi⟩) + 2
           else if i = (touchedCells b).length - 1 then wf ((touchedCells b).get ⟨i, hi⟩)
           else wf ((touchedCells b).get ⟨i, hi⟩) + 1) := by
  intro b wf hwf i hi
  have hws : (availables b).map (fun p => Q.val p.2)
      = ((touchedCells b).map (fun c => wf c + 1)).map (fun w => ((w : Nat) : ℚ)) :=
    availables_vals b wf hwf
  have hw1 : ∀ w ∈ (touchedCells b).map (fun c => wf c + 1), 1 ≤ w := by
    intro w hw
    obtain ⟨c, hc, rfl⟩ := List.mem_map.mp hw
    omega
  have hndav : ((availables b).map Prod.fst).Nodup := by
    rw [availables_fst]
    exact touchedCells_nodup b
  have hlenav : (availables b).length = (touchedCells b).length := by
    show ((touchedCells b).map (fun c => (c, b.get_blob c.1 c.2 + 1))).length
      = (touchedCells b).length
    rw [List.length_map]
  have hlensw : ((touchedCells b).map (fun c => wf c + 1)).length
      = (touchedCells b).length := List.length_map _ _
  have hvaltotal : Q.val (total_blob b)
      = ((((touchedCells b).map (fun c => wf c + 1)).sum : ℕ) : ℚ) := by
    rw [total_blob, foldl_val_sum, hws, list_sum_cast, Q.val_zero, zero_add]
  have hT : (Q.trunc (total_blob b)).toNat
      = ((touchedCells b).map (fun c => wf c + 1)).sum := by
    rw [Q.trunc_of_val _ _ hvaltotal]
    exact Int.toNat_natCast _
  have hsum_ge : (touchedCells b).length
      ≤ ((touchedCells b).map (fun c => wf c + 1)).sum := by
    have hh := list_length_le_sum _ hw1
    omega
  have hlen0 : ¬((availables b).length = 0) := by omega
  have hT0 : ¬((Q.trunc (total_blob b)).toNat = 0) := by omega
  have hiav : i < (availables b).length := by omega
  have hget : ((availables b).get ⟨i, hiav⟩).1 = (touchedCells b).get ⟨i, hi⟩ := by
    have hm : i < ((touchedCells b).map (fun c => (c, b.get_blob c.1 c.2 + 1))).length :=
      hiav
    have he : (availables b).get ⟨i, hiav⟩
        = ((touchedCells b).map (fun c => (c, b.get_blob c.1 c.2 + 1))).get ⟨i, hm⟩ := rfl
    rw [he]
    simp [List.get_eq_getElem, List.getElem_map]
  have hfb : ∀ v ∈ List.range ((Q.trunc (total_blob b)).toNat),
      decide (find_blob_square b v = some ((touchedCells b).get ⟨i, hi⟩))
        = decide (pickLoop v 0 (availables b)
            = some (((availables b).get ⟨i, hiav⟩).1)) := by
    intro v hv
    rw [List.mem_range] at hv
    have hfbv : find_blob_square b v = pickLoop v 0 (availables b) := by
      unfold find_blob_square
      rw [if_neg hlen0]
      show (if (Q.trunc (total_blob b)).toNat = 0 then none
        else pickLoop (v % (Q.trunc (total_blob b)).toNat) 0 (availables b))
        = pickLoop v 0 (availables b)
      rw [if_neg hT0, Nat.mod_eq_of_lt hv]
    rw [hfbv, hget]
  rw [selectionCount, ← List.countP_eq_length_filter,
    countP_congr_mem _ _ (List.range ((Q.trunc (total_blob b)).toNat)) hfb,
    pickLoop_count ((Q.trunc (total_blob b)).toNat) (availables b)
      ((touchedCells b).map (fun c => wf c + 1)) 0 0 hws hw1 hndav
      (by rw [Q.val_zero]; norm_num) i hiav]
  have hiw : i < ((touchedCells b).map (fun c => wf c + 1)).length := by omega
  have hg : ((touchedCells b).map (fun c => wf c + 1)).get ⟨i, hiw⟩
      = wf ((touchedCells b).get ⟨i, hi⟩) + 1 := by
    simp [List.get_eq_getElem, List.getElem_map]
  have htk : (((touchedCells b).map (fun c => wf c + 1)).take (i + 1)).sum
      = (((touchedCells b).map (fun c => wf c + 1)).take i).sum
        + ((touchedCells b).map (fun c => wf c + 1)).get ⟨i, hiw⟩ :=
    List.sum_take_succ _ _ _
  have hsp0 : (((touchedCells b).map (fun c => wf c + 1)).take i).sum
      + (((touchedCells b).map (fun c => wf c + 1)).drop i).sum
      = ((touchedCells b).map (fun c => wf c + 1)).sum := by
    rw [← List.sum_append, List.take_append_drop]
  have hsp1 : (((touchedCells b).map (fun c => wf c + 1)).take (i + 1)).sum
      + (((touchedCells b).map (fun c => wf c + 1)).drop (i + 1)).sum
      = ((touchedCells b).map (fun c => wf c + 1)).sum := by
    rw [← List.sum_append, List.take_append_drop]
  have hd0 : ((touchedCells b).map (fun c => wf c + 1)).length - i
      ≤ (((touchedCells b).map (fun c => wf c + 1)).drop i).sum := by
    have hh := list_length_le_sum (((touchedCells b).map (fun c => wf c + 1)).drop i)
      (fun w hw => hw1 w (List.drop_subset _ _ hw))
    rw [List.length_drop] at hh
    exact hh
  have hd1 : ((touchedCells b).map (fun c => wf c + 1)).length - (i + 1)
      ≤ (((touchedCells b).map (fun c => wf c + 1)).drop (i + 1)).sum := by
    have hh := list_length_le_sum (((touchedCells b).map (fun c => wf c + 1)).drop (i + 1))
      (fun w hw => hw1 w (List.drop_subset _ _ hw))
    rw [List.length_drop] at hh
    exact hh
  have hg1 : 1 ≤ ((touchedCells b).map (fun c => wf c + 1)).get ⟨i, hiw⟩ :=
    hw1 _ (List.get_mem _ _ _)
  by_cases hL1 : (touchedCells b).length = 1
  · rw [if_pos hL1]
    have hi0 : i = 0 := by omega
    subst hi0
    rw [if_pos rfl]
    have hdn : ((((touchedCells b).map (fun c => wf c + 1)).drop (0 + 1)).sum) = 0 := by
      rw [List.drop_eq_nil_of_le (by omega)]
      rfl
    have ht00 : (((touchedCells b).map (fun c => wf c + 1)).take 0).sum = 0 := rfl
    omega
  · rw [if_neg hL1]
    by_cases hI0 : i = 0
    · subst hI0
      rw [if_pos rfl, if_pos rfl]
      have ht00 : (((touchedCells b).map (fun c => wf c + 1)).take 0).sum = 0 := rfl
      omega
    · rw [if_neg hI0, if_neg hI0]
      by_cases hIL : i = (touchedCells b).length - 1
      · rw [if_pos hIL]
        have hdn : ((((touchedCells b).map (fun c => wf c + 1)).drop (i + 1)).sum) = 0 := by
          rw [List.drop_eq_nil_of_le (by omega)]
          rfl
        omega
      · rw [if_neg hIL]
        omega

/-- C5, witness for the amended theorem: on the 1 by 3 board with blob masses
1, 0, 2 (weights 2, 1, 3; total 6) the three cells are selected by 3, 1 and 2
of the 6 draws respectively: the first cell gains one extra draw, the middle
cell is exact, the last cell loses one. -/
theorem find_blob_square_selection_counts_witness :
    selectionCount bW213 (0, 0) = 3 ∧ selectionCount bW213 (0, 1) = 1
      ∧ selectionCount bW213 (0, 2) = 2 := by
  have hwf : ∀ c ∈ touchedCells bW213,
      Q.val (bW213.get_blob c.1 c.2)
        = (((fun c : Nat × Nat => if c.2 = 0 then 1 else if c.2 = 1 then 0 else 2) c : Nat) : ℚ) := by
    intro c hc
    have hcs : touchedCells bW213 = [(0, 0), (0, 1), (0, 2)] := by decide
    rw [hcs] at hc
    simp only [List.mem_cons, List.not_mem_nil, or_false] at hc
    rcases hc with rfl | rfl | rfl
    · show Q.val (1 : Q) = ((1 : Nat) : ℚ)
      rw [Q.val_one]
      norm_num
    · show Q.val (0 : Q) = ((0 : Nat) : ℚ)
      rw [Q.val_zero]
      norm_num
    · show Q.val (2 : Q) = ((2 : Nat) : ℚ)
      rw [Q.val_ofNat]
  have h := find_blob_square_selection_counts bW213
    (fun c => if c.2 = 0 then 1 else if c.2 = 1 then 0 else 2) hwf
  refine ⟨?_, ?_, ?_⟩
  · have h0 := h 0 (by decide)
    have hA : selectionCount bW213 ((touchedCells bW213).get ⟨0, by decide⟩)
        = selectionCount bW213 (0, 0) := rfl
    rw [hA.symm.trans h0]
    decide
  · have h1 := h 1 (by decide)
    have hA : selectionCount bW213 ((touchedCells bW213).get ⟨1, by decide⟩)
        = selectionCount bW213 (0, 1) := rfl
    rw [hA.symm.trans h1]
    decide
  · have h2 := h 2 (by decide)
    have hA : selectionCount bW213 ((touchedCells bW213).get ⟨2, by decide⟩)
        = selectionCount bW213 (0, 2) := rfl
    rw [hA.symm.trans h2]
    decide

/-- C6: find_blob_square is total and stays within the touched cells: on a
board with at least one touched cell (the board's blob masses being
non-negative, as the spec requires of get_blob), every value of the random
draw makes it return some touched, in-bounds cell — the accumulation loop
always selects before exhausting the list — and when no touched cell exists
it returns the fixed default coordinate (0, 0). -/
theorem find_blob_square_total (b : Board) (raw : Nat)
    (hblob : ∀ x y, 0 ≤ Q.val (b.get_blob x y)) :
    ((availables b).length ≠ 0 →
       ∃ c, find_blob_square b raw = some c ∧ b.is_touched c.1 c.2 = true ∧
         c.1 < b.width ∧ c.2 < b.height) ∧
    ((availables b).length = 0 → find_blob_square b raw = some (0, 0)) := by
  constructor
  · intro hne
    have hlen1 : (1 : ℚ) ≤ ((availables b).length : ℚ) := by
      have h := Nat.one_le_iff_ne_zero.mpr hne
      exact_mod_cast h
    have htot : (1 : ℚ) ≤ Q.val (total_blob b) :=
      le_trans hlen1 (total_blob_ge_length b hblob)
    have htr : (1 : ℤ) ≤ Q.trunc (total_blob b) := by
      rw [Q.trunc_eq_ratTrunc, ratTrunc_of_nonneg _ (le_trans zero_le_one htot)]
      exact Int.le_floor.mpr (by exact_mod_cast htot)
    have hnpos : 0 < (Q.trunc (total_blob b)).toNat := by omega
    have hncast : (((Q.trunc (total_blob b)).toNat : Nat) : ℚ) ≤ Q.val (total_blob b) := by
      have h0 : (0 : ℤ) ≤ Q.trunc (total_blob b) := by omega
      have heq : (((Q.trunc (total_blob b)).toNat : Nat) : ℚ)
          = ((Q.trunc (total_blob b) : ℤ) : ℚ) := by
        exact_mod_cast congrArg (fun z : ℤ => (z : ℚ)) (Int.toNat_of_nonneg h0)
      rw [heq, Q.trunc_eq_ratTrunc, ratTrunc_of_nonneg _ (le_trans zero_le_one htot)]
      exact Int.floor_le (Q.val (total_blob b))
    have hvn : ((raw % (Q.trunc (total_blob b)).toNat : Nat) : ℚ)
        ≤ Q.val ((availables b).foldl (fun a p => a + p.2) 0) := by
      have h1 : raw % (Q.trunc (total_blob b)).toNat < (Q.trunc (total_blob b)).toNat :=
        Nat.mod_lt _ hnpos
      have h2 : ((raw % (Q.trunc (total_blob b)).toNat : Nat) : ℚ)
          < (((Q.trunc (total_blob b)).toNat : Nat) : ℚ) := by exact_mod_cast h1
      have h3 : Q.val (total_blob b)
          = Q.val ((availables b).foldl (fun a p => a + p.2) 0) := rfl
      linarith
    obtain ⟨p, hp, hpick⟩ :=
      pickLoop_mem (availables b) (raw % (Q.trunc (total_blob b)).toNat) 0
        (List.length_pos.mp (Nat.pos_of_ne_zero hne)) hvn
    obtain ⟨ht, hw, hh, _⟩ := mem_availables b p hp
    refine ⟨p.1, ?_, ht, hw, hh⟩
    unfold find_blob_square
    rw [if_neg hne, if_neg (by omega)]
    exact hpick
  · intro h0
    unfold find_blob_square
    rw [if_pos h0]

/-- C6, witness: on the board with five touched blobless cells, the draw 3
selects a touched in-bounds cell. -/
theorem find_blob_square_total_witness :
    ∃ c, find_blob_square bTouch5 3 = some c ∧ bTouch5.is_touched c.1 c.2 = true ∧
      c.1 < bTouch5.width ∧ c.2 < bTouch5.height := by
  refine (find_blob_square_total bTouch5 3 ?_).1 (by decide)
  intro x y
  rw [show bTouch5.get_blob x y = 0 from rfl, Q.val_zero]

/-- C9: food_destroyed fails (ValueError) exactly when the coordinate is not
in the known-food list, and otherwise removes exactly one occurrence of it,
changing nothing else of the manager. -/
theorem food_destroyed_spec (m : Manager) (x y : Nat) (food : List (Nat × Nat))
    (h : getCoords m.knowledge "food" = some food) :
    (food_destroyed m x y = none ↔ (x, y) ∉ food) ∧
    ((x, y) ∈ food → ∃ m', food_destroyed m x y = some m' ∧
       getCoords m'.knowledge "food" = some (food.erase (x, y)) ∧
       (food.erase (x, y)).length + 1 = food.length ∧
       List.count (x, y) (food.erase (x, y)) + 1 = List.count (x, y) food ∧
       m'.scouters = m.scouters ∧ m'.board = m.board ∧ m'.nextId = m.nextId ∧
       m'.rng = m.rng ∧
       (∀ k, k ≠ "food" → lookupPair k m'.knowledge = lookupPair k m.knowledge)) := by
  constructor
  · constructor
    · intro hn hmem
      simp [food_destroyed, h, hmem] at hn
    · intro hmem
      simp [food_destroyed, h, hmem]
  · intro hmem
    refine ⟨{ m with knowledge := setKey "food" (JValue.coords (food.erase (x, y))) m.knowledge },
      by simp [food_destroyed, h, hmem], ?_, ?_, ?_, rfl, rfl, rfl, rfl, ?_⟩
    · simp [getCoords_setKey_food]
    · have hlen := List.length_erase_of_mem hmem
      have hpos : 0 < food.length := List.length_pos_of_mem hmem
      omega
    · have hc := List.count_erase_self (x, y) food
      have hpos : 0 < List.count (x, y) food := List.count_pos_iff.mpr hmem
      omega
    · intro k hk
      exact lookupPair_setKey_ne _ _ _ _ hk

/-- C9, witness at the concrete manager mTwoFood: destroying the known food
(1, 2) succeeds and removes it; destroying the unknown food (7, 7) fails. -/
theorem food_destroyed_spec_witness :
    (food_destroyed mTwoFood 7 7 = none) ∧
    (∃ m', food_destroyed mTwoFood 1 2 = some m' ∧
       getCoords m'.knowledge "food" = some [(3, 4)]) := by
  constructor
  · exact (food_destroyed_spec mTwoFood 7 7 [(1, 2), (3, 4)] (by decide)).1.mpr (by decide)
  · obtain ⟨m', h1, h2, _⟩ :=
      (food_destroyed_spec mTwoFood 1 2 [(1, 2), (3, 4)] (by decide)).2 (by decide)
    exact ⟨m', h1, h2⟩

/-- C7: save round-trips deterministically.  First conjunct: two managers
whose knowledge dictionaries agree up to key order (the same pairs, possibly
reordered, with duplicate-free keys) produce byte-identical serialized output
(the derived food and max_scouters entries stripped, keys sorted, fixed
indentation).  Second conjunct: reloading the stripped dictionary of a saved
manager into a fresh manager over a blank board and saving again yields
byte-identical output. -/
theorem save_deterministic_roundtrip :
    (∀ m1 m2 s1 r1, List.Perm m1.knowledge m2.knowledge →
       (m1.knowledge.map Prod.fst).Nodup →
       save m1 = some (s1, r1) → ∃ r2, save m2 = some (s1, r2)) ∧
    (∀ m d2 s r w h env m2, (m.knowledge.map Prod.fst).Nodup →
       save m = some (s, r) → stripDerived m.knowledge = some d2 →
       init (blankBoard w h) (some d2) env = some m2 →
       ∃ r2, save m2 = some (s, r2)) := by
  constructor
  · intro m1 m2 s1 r1 hperm hnd hsave
    rw [save] at hsave
    simp only [Option.bind_eq_bind, Option.bind_eq_some] at hsave
    obtain ⟨e1, he1, e2, he2, hpair⟩ := hsave
    simp only [Option.pure_def, Option.some_inj, Prod.mk.injEq] at hpair
    have hs1 : s1 = dumps e2 := hpair.1.symm
    have hnd2 : (m2.knowledge.map Prod.fst).Nodup :=
      ((hperm.map Prod.fst).nodup_iff).mp hnd
    have hmemf : "food" ∈ m2.knowledge.map Prod.fst :=
      ((hperm.map Prod.fst).mem_iff).mp (mem_of_delKey_some "food" m1.knowledge e1 he1)
    obtain ⟨v1, hv1⟩ := lookupPair_isSome_of_mem "food" m2.knowledge hmemf
    obtain ⟨e1b, he1b⟩ := delKey_isSome_of_lookup "food" m2.knowledge v1 hv1
    have hfe1 : e1 = m1.knowledge.filter (fun p => !(p.1 == "food")) :=
      delKey_eq_filter "food" m1.knowledge e1 hnd he1
    have hfe1b : e1b = m2.knowledge.filter (fun p => !(p.1 == "food")) :=
      delKey_eq_filter "food" m2.knowledge e1b hnd2 he1b
    have hperm1 : List.Perm e1 e1b := by
      rw [hfe1, hfe1b]
      exact hperm.filter _
    have hnde1 : (e1.map Prod.fst).Nodup := by
      rw [hfe1]
      exact List.Nodup.sublist (List.Sublist.map Prod.fst (List.filter_sublist _)) hnd
    have hnde1b : (e1b.map Prod.fst).Nodup :=
      ((hperm1.map Prod.fst).nodup_iff).mp hnde1
    have hmemm : "max_scouters" ∈ e1b.map Prod.fst :=
      ((hperm1.map Prod.fst).mem_iff).mp (mem_of_delKey_some "max_scouters" e1 e2 he2)
    obtain ⟨v2, hv2⟩ := lookupPair_isSome_of_mem "max_scouters" e1b hmemm
    obtain ⟨e2b, he2b⟩ := delKey_isSome_of_lookup "max_scouters" e1b v2 hv2
    have hperm2 : List.Perm e2 e2b := by
      rw [delKey_eq_filter "max_scouters" e1 e2 hnde1 he2,
        delKey_eq_filter "max_scouters" e1b e2b hnde1b he2b]
      exact hperm1.filter _
    have hnde2 : (e2.map Prod.fst).Nodup := by
      rw [delKey_eq_filter "max_scouters" e1 e2 hnde1 he2]
      exact List.Nodup.sublist (List.Sublist.map Prod.fst (List.filter_sublist _)) hnde1
    refine ⟨m2, ?_⟩
    rw [save]
    simp only [Option.bind_eq_bind]
    rw [he1b, Option.some_bind, he2b, Option.some_bind]
    rw [hs1, dumps_perm_eq e2 e2b hperm2 hnde2]
    rfl
  · intro m d2 s r w h env m2 hnd hsave hstrip hinit
    rw [save] at hsave
    simp only [Option.bind_eq_bind, Option.bind_eq_some] at hsave
    obtain ⟨e1, he1, e2, he2, hpair⟩ := hsave
    simp only [Option.pure_def, Option.some_inj, Prod.mk.injEq] at hpair
    have hs : s = dumps e2 := hpair.1.symm
    rw [stripDerived, he1, Option.some_bind, he2, Option.some_inj] at hstrip
    rw [hstrip] at he2 hs
    have hnde1 : (e1.map Prod.fst).Nodup := by
      rw [delKey_eq_filter "food" m.knowledge e1 hnd he1]
      exact List.Nodup.sublist (List.Sublist.map Prod.fst (List.filter_sublist _)) hnd
    have hfood_e1 : lookupPair "food" e1 = none :=
      lookupPair_delKey_self "food" m.knowledge e1 hnd he1
    have hfood_d2 : lookupPair "food" d2 = none := by
      rw [lookupPair_delKey_ne "max_scouters" "food" e1 d2 he2 (by decide)]
      exact hfood_e1
    have hmax_d2 : lookupPair "max_scouters" d2 = none :=
      lookupPair_delKey_self "max_scouters" e1 d2 hnde1 he2
    rw [init] at hinit
    simp only [Option.bind_eq_bind, Option.some_bind, scanFood_blank] at hinit
    obtain ⟨mx, hmx, hloop⟩ := Option.bind_eq_some.mp hinit
    have hkm2 := (spawnLoop_frame env _ _ m2 hloop).1
    have hset1 : setKey "food" (JValue.coords []) d2 = d2 ++ [("food", JValue.coords [])] :=
      setKey_append_of_absent "food" (JValue.coords []) d2 hfood_d2
    have hmax_k1 : lookupPair "max_scouters" (d2 ++ [("food", JValue.coords [])]) = none := by
      rw [lookupPair_append_of_absent "max_scouters" d2 _ hmax_d2]
      rfl
    have hm2k : m2.knowledge
        = d2 ++ [("food", JValue.coords []), ("max_scouters", JValue.num mx)] := by
      rw [hkm2]
      show setKey "max_scouters" (JValue.num mx) (setKey "food" (JValue.coords []) d2) = _
      rw [hset1, setKey_append_of_absent "max_scouters" (JValue.num mx) _ hmax_k1,
        List.append_assoc]
      rfl
    have hdel1 : delKey "food" m2.knowledge
        = some (d2 ++ [("max_scouters", JValue.num mx)]) := by
      rw [hm2k, delKey_append_of_absent "food" d2 _ hfood_d2]
      rfl
    have hdel2 : delKey "max_scouters" (d2 ++ [("max_scouters", JValue.num mx)])
        = some d2 := by
      rw [delKey_append_of_absent "max_scouters" d2 _ hmax_d2]
      simp [delKey]
    refine ⟨m2, ?_⟩
    rw [save]
    simp only [Option.bind_eq_bind]
    rw [hdel1, Option.some_bind, hdel2, Option.some_bind, hs]
    rfl

/-- C7, witness: the managers mSaveA and mSaveB carry the same knowledge up to
key order and serialize to byte-identical output, and saving, reloading into a
fresh manager over a blank 3 by 3 board and saving again is byte-identical. -/
theorem save_deterministic_roundtrip_witness :
    (∃ s r1 r2, save mSaveA = some (s, r1) ∧ save mSaveB = some (s, r2)) ∧
    (∃ s r m2 r2, save mSaveA = some (s, r) ∧
       init (blankBoard 3 3) (some docFull) envZero = some m2 ∧
       save m2 = some (s, r2)) := by
  have hsaveA : (save mSaveA).isSome = true := by decide
  obtain ⟨⟨s, r1⟩, hsr⟩ := Option.isSome_iff_exists.mp hsaveA
  constructor
  · obtain ⟨r2, h2⟩ := save_deterministic_roundtrip.1 mSaveA mSaveB s r1
      (by decide) (by decide) hsr
    exact ⟨s, r1, r2, hsr, h2⟩
  · have hinitsome : (init (blankBoard 3 3) (some docFull) envZero).isSome = true := by decide
    obtain ⟨m2, hm2⟩ := Option.isSome_iff_exists.mp hinitsome
    obtain ⟨r2, h2⟩ := save_deterministic_roundtrip.2 mSaveA docFull s r1 3 3 envZero m2
      (by decide) hsr (by decide) hm2
    exact ⟨s, r1, m2, r2, hsr, hm2, h2⟩

/-- C8: reset removes every scouter standing at (x, y); when (x, y) is a known
food coordinate it additionally removes it from the food list and decrements
the cached population target by exactly one (a direct adjustment of the
max_scouters entry, not a recomputation); when the cell holds neither a
scouter nor known food, the manager is left unchanged.  The food list and the
scouter identities are duplicate-free, as the data-model invariants state. -/
theorem reset_spec (m : Manager) (x y : Nat) (food : List (Nat × Nat)) (mx : Q)
    (hfood : getCoords m.knowledge "food" = some food)
    (hmx : getNum m.knowledge "max_scouters" = some mx)
    (hnd : food.Nodup) (hids : (m.scouters.map Scouter.id).Nodup) :
    ∃ m', reset m x y = some m' ∧
      m'.scouters = m.scouters.filter (fun sc => !(sc.x == x && sc.y == y)) ∧
      ((x, y) ∈ food →
        getCoords m'.knowledge "food" = some (food.erase (x, y)) ∧
        getNum m'.knowledge "max_scouters" = some (mx - 1) ∧
        Q.val (mx - 1) = Q.val mx - 1) ∧
      ((x, y) ∉ food → m'.knowledge = m.knowledge) ∧
      (((x, y) ∉ food ∧ ∀ sc ∈ m.scouters, ¬(sc.x = x ∧ sc.y = y)) → m' = m) := by
  have hloop : resetScouterLoop x y m.scouters m.scouters
      = m.scouters.filter (fun sc => !(sc.x == x && sc.y == y)) := by
    have hh := resetScouterLoop_filter x y [] m.scouters (by simpa using hids)
    simpa using hh
  have hvalsub : Q.val (mx - 1) = Q.val mx - 1 := by
    rw [Q.val_sub, Q.val_one]
  by_cases hmem : (x, y) ∈ food
  · have hrun := resetFoodLoop_mem x y
      { m with scouters := resetScouterLoop x y m.scouters m.scouters } food mx
      hfood hmx hmem hnd
    refine ⟨{ m with scouters := resetScouterLoop x y m.scouters m.scouters, knowledge := setKey "max_scouters" (JValue.num (mx - 1)) (setKey "food" (JValue.coords (food.erase (x, y))) m.knowledge) },
      ?_, ?_, fun _ => ⟨?_, ?_, hvalsub⟩, fun hn => absurd hmem hn,
      fun hc => absurd hmem hc.1⟩
    · rw [reset]
      show (getCoords m.knowledge "food").bind _ = _
      rw [hfood, Option.bind]
      exact hrun
    · simp [hloop]
    · show getCoords (setKey "max_scouters" (JValue.num (mx - 1))
        (setKey "food" (JValue.coords (food.erase (x, y))) m.knowledge)) "food"
        = some (food.erase (x, y))
      rw [getCoords, lookupPair_setKey_ne "max_scouters" "food" _ _ (by decide),
        lookupPair_setKey_self]
    · show getNum (setKey "max_scouters" (JValue.num (mx - 1))
        (setKey "food" (JValue.coords (food.erase (x, y))) m.knowledge)) "max_scouters"
        = some (mx - 1)
      rw [getNum, lookupPair_setKey_self]
  · have hrun := resetFoodLoop_skip x y food
      { m with scouters := resetScouterLoop x y m.scouters m.scouters }
      (fun f hf he => hmem (he ▸ hf))
    refine ⟨{ m with scouters := resetScouterLoop x y m.scouters m.scouters },
      ?_, ?_, fun hc => absurd hc hmem, fun _ => rfl, fun hc => ?_⟩
    · rw [reset]
      show (getCoords m.knowledge "food").bind _ = _
      rw [hfood, Option.bind]
      exact hrun
    · simp [hloop]
    · have hfil : m.scouters.filter (fun sc => !(sc.x == x && sc.y == y)) = m.scouters := by
        apply List.filter_eq_self.mpr
        intro sc hsc
        have hno := hc.2 sc hsc
        simp only [Bool.not_eq_true']
        rw [Bool.and_eq_false_iff]
        rcases Decidable.not_and_iff_or_not.mp hno with h | h
        · exact Or.inl (beq_eq_false_iff_ne.mpr h)
        · exact Or.inr (beq_eq_false_iff_ne.mpr h)
      show { m with scouters := resetScouterLoop x y m.scouters m.scouters } = m
      rw [hloop, hfil]

/-- C8, witness: on the manager mTwoFood, resetting (1, 2) — a cell holding
both a scouter and known food — removes both and decrements the cached target
from 2 to 1; resetting the empty cell (9, 9) is a no-op. -/
theorem reset_spec_witness :
    (∃ m', reset mTwoFood 1 2 = some m' ∧
       m'.scouters = [⟨1, 5, 5⟩] ∧
       getCoords m'.knowledge "food" = some [(3, 4)] ∧
       getNum m'.knowledge "max_scouters" = some (2 - 1)) ∧
    (∃ m2, reset mTwoFood 9 9 = some m2 ∧ m2 = mTwoFood) := by
  constructor
  · obtain ⟨m', h1, h2, h3, _⟩ := reset_spec mTwoFood 1 2 [(1, 2), (3, 4)] 2
      (by decide) (by decide) (by decide) (by decide)
    obtain ⟨h4, h5, _⟩ := h3 (by decide)
    exact ⟨m', h1, by rw [h2]; decide, by simpa using h4, h5⟩
  · obtain ⟨m2, h1, _, _, _, h5⟩ := reset_spec mTwoFood 9 9 [(1, 2), (3, 4)] 2
      (by decide) (by decide) (by decide) (by decide)
    exact ⟨m2, h1, h5 ⟨by decide, by decide⟩⟩

/-- C10: save does not mutate the manager: it succeeds whenever the two
derived entries are present, the state it leaves behind is exactly the
original manager, and in particular the knowledge dictionary still holds the
food and max_scouters entries with their prior values (the deletions happen
on a copy only). -/
theorem save_does_not_mutate (m : Manager) (fv mv : JValue)
    (hf : lookupPair "food" m.knowledge = some fv)
    (hm : lookupPair "max_scouters" m.knowledge = some mv) :
    ∃ s, save m = some (s, m) ∧
      lookupPair "food" m.knowledge = some fv ∧
      lookupPair "max_scouters" m.knowledge = some mv ∧
      m.scouters = m.scouters ∧ m.board = m.board := by
  obtain ⟨d1, hd1⟩ := delKey_isSome_of_lookup "food" m.knowledge fv hf
  have hm1 : lookupPair "max_scouters" d1 = some mv := by
    rw [lookupPair_delKey_ne "food" "max_scouters" m.knowledge d1 hd1 (by decide)]
    exact hm
  obtain ⟨d2, hd2⟩ := delKey_isSome_of_lookup "max_scouters" d1 mv hm1
  exact ⟨dumps d2, by simp [save, hd1, hd2], hf, hm, rfl, rfl⟩

/-- C10, witness at the concrete manager mTwoFood. -/
theorem save_does_not_mutate_witness :
    ∃ s, save mTwoFood = some (s, mTwoFood) := by
  obtain ⟨s, h1, _⟩ := save_does_not_mutate mTwoFood (JValue.coords [(1, 2), (3, 4)])
    (JValue.num 2) (by decide) (by decide)
  exact ⟨s, h1⟩

end BlobSim
